import Mathlib

/-! ShrikeFlash: the FPGA configuration sequencer.

A shallow embedding of `src/ShrikeFlash.cpp` / `src/ShrikeFlash.h`.

* Every call the code makes on a collaborator whose result it does not use
  (GPIO writes, delays, SPI calls, `file.close()`, `Serial.print*`) is an
  `Event`; a member function returns the list of events it performs, in
  program order.
* Every call whose result the code uses (`LittleFS.begin`, `LittleFS.exists`,
  `LittleFS.open`, `file.read`, `millis`) is answered by the environment `Env`.
* The object's fields are the record `ShrikeFlash`.
* `unsigned long` and `size_t` are 32 bits wide on the target (RP2040), so
  they are naturals reduced modulo `2 ^ 32`; `double` and `float` are IEEE-754
  binary64 and binary32 with round-to-nearest-even, modelled exactly on `ℚ`.
-/

/-! ## Data model -/

/-- Logic level of a GPIO (`LOW` / `HIGH`). -/
inductive Level where
  | LOW
  | HIGH
  deriving DecidableEq, Repr

/-- Bit order argument of `SPISettings`. -/
inductive BitOrder where
  | LSBFIRST
  | MSBFIRST
  deriving DecidableEq, Repr

/-- Clock mode argument of `SPISettings`. -/
inductive SpiMode where
  | SPI_MODE0
  | SPI_MODE1
  | SPI_MODE2
  | SPI_MODE3
  deriving DecidableEq, Repr

/-- The value built by `new SPISettings(_spi_speed, MSBFIRST, SPI_MODE0)`. -/
structure SPISettings where
  clock : Nat
  bitOrder : BitOrder
  dataMode : SpiMode
  deriving DecidableEq, Repr

/-- One byte of the bitstream file. -/
abbrev Byte := Fin 256

/-- The calls the code makes for their effect, in the order it makes them. -/
inductive Event where
  | pinModeOutput (pin : Nat)
  | digitalWrite (pin : Nat) (level : Level)
  | delay (ms : Nat)
  | delayMicroseconds (us : Nat)
  | spiSetSCK (pin : Nat)
  | spiSetTX (pin : Nat)
  | spiSetRX (pin : Nat)
  | spiSetCS (pin : Nat)
  | spiBegin
  | spiBeginTransaction (settings : SPISettings)
  | spiTransfer (buffer : List Byte)
  | spiEndTransaction
  | fileClose
  | serialPrint (text : String)
  | serialPrintln (text : String)
  | serialPrintNum (n : Nat)
  | serialPrintFloat (value : ℚ) (digits : Nat)
  deriving DecidableEq

/-- The private fields of `class ShrikeFlash`; `spi_settings` is `none` while the
pointer `_spi_settings` is `nullptr`. -/
structure ShrikeFlash where
  en_pin : Nat
  pwr_pin : Nat
  ss_pin : Nat
  sck_pin : Nat
  mosi_pin : Nat
  miso_pin : Nat
  spi_speed : Nat
  spi_settings : Option SPISettings
  last_flash_time : Nat
  transfer_rate : ℚ

/-- The answers of the collaborators whose results the code uses.

* `mountOk` is the result of `LittleFS.begin()`;
* `existsPath f` is the result of `LittleFS.exists(f)`;
* `openPath f` is the content of the file `LittleFS.open(f, "r")` yields, `none`
  when the returned handle tests false;
* `readLen i n r` is how many bytes the `i`-th `file.read` of a call would hand
  back when asked for `n` bytes with `r` bytes left unread (see `fileRead`);
* `millis k` is the value of the `k`-th call of `millis()` within a call. -/
structure Env where
  mountOk : Bool
  existsPath : String → Bool
  openPath : String → Option (List Byte)
  readLen : Nat → Nat → Nat → Nat
  millis : Nat → Nat

/-- What a member function leaves behind: its return value, the object after the
call, and the events it performed. -/
structure Outcome where
  ret : Bool
  self : ShrikeFlash
  trace : List Event

/-- Levels currently driven on the GPIOs, by pin number. -/
abbrev PinLevels := Nat → Level

/-! ## Pin levels along a trace -/

/-- Effect of one event on the driven levels: only `digitalWrite` changes them. -/
def applyEvent (pins : PinLevels) : Event → PinLevels
  | Event.digitalWrite pin level => fun q => if q = pin then level else pins q
  | _ => pins

/-- Levels after a whole trace, starting from `pins`. -/
def replay (pins : PinLevels) (trace : List Event) : PinLevels :=
  trace.foldl applyEvent pins

/-- Serial log output, as opposed to pin, bus and file activity. -/
def Event.isSerial : Event → Bool
  | Event.serialPrint _ => true
  | Event.serialPrintln _ => true
  | Event.serialPrintNum _ => true
  | Event.serialPrintFloat _ _ => true
  | _ => false

/-- The pin, bus and file events of a trace (everything but the serial log). -/
def hardware (trace : List Event) : List Event :=
  trace.filter (fun e => !e.isSerial)

/-- The serial log of a trace. -/
def serialLog (trace : List Event) : List Event :=
  trace.filter Event.isSerial

/-- The buffers handed to `SPI.transfer`, in call order. -/
def transfers : List Event → List (List Byte)
  | [] => []
  | Event.spiTransfer buffer :: es => buffer :: transfers es
  | _ :: es => transfers es

/-- Is the event one of the three SPI transaction calls? -/
def Event.isSpiTraffic : Event → Bool
  | Event.spiBeginTransaction _ => true
  | Event.spiTransfer _ => true
  | Event.spiEndTransaction => true
  | _ => false

/-- Is the event a call of `SPI.beginTransaction`? -/
def Event.isBeginTransaction : Event → Bool
  | Event.spiBeginTransaction _ => true
  | _ => false

/-- Is the event a call of `SPI.endTransaction`? -/
def Event.isEndTransaction : Event → Bool
  | Event.spiEndTransaction => true
  | _ => false

/-- Is the event a wait or an SPI transaction call, i.e. does it take bus time? -/
def Event.isTimed : Event → Bool
  | Event.delay _ => true
  | Event.delayMicroseconds _ => true
  | e => e.isSpiTraffic

/-- The waits and SPI transaction calls of a trace, each paired with the level
the pin `ss` holds while it runs (the level before the call is `pins ss`). -/
def ssProfile (ss : Nat) : PinLevels → List Event → List (Event × Level)
  | _, [] => []
  | pins, e :: es =>
    if e.isTimed then (e, pins ss) :: ssProfile ss (applyEvent pins e) es
    else ssProfile ss (applyEvent pins e) es

/-- Does every `SPI.transfer` of the trace happen inside an open transaction
(`inTxn`) and with the pin `ss` low? -/
def transfersGuarded (ss : Nat) : PinLevels → Bool → List Event → Bool
  | _, _, [] => true
  | pins, inTxn, e :: es =>
    match e with
    | Event.spiBeginTransaction _ => transfersGuarded ss pins true es
    | Event.spiEndTransaction => transfersGuarded ss pins false es
    | Event.spiTransfer _ =>
      inTxn && decide (pins ss = Level.LOW) && transfersGuarded ss pins inTxn es
    | _ => transfersGuarded ss (applyEvent pins e) inTxn es

/-! ## Floating point -/

/-- Nearest integer, ties to the even one. -/
def roundHalfEven (x : ℚ) : ℤ :=
  let f := ⌊x⌋
  let r := x - f
  if r < 1 / 2 then f
  else if 1 / 2 < r then f + 1
  else if f % 2 = 0 then f
  else f + 1

/-- Round-to-nearest-even onto the binary floating-point numbers with a `p`-bit
significand. The exponent range is not modelled: every value the code computes
from two 32-bit integers lies in the normal range of binary32 and binary64. -/
def roundToPrecision (p : ℕ) (x : ℚ) : ℚ :=
  if x = 0 then 0
  else
    let ulp : ℚ := (2 : ℚ) ^ (Int.log 2 |x| - (p : ℤ) + 1)
    (roundHalfEven (x / ulp) : ℚ) * ulp

/-- Rounding to `double` (binary64). -/
def toDouble (x : ℚ) : ℚ := roundToPrecision 53 x

/-- Rounding to `float` (binary32). -/
def toFloat (x : ℚ) : ℚ := roundToPrecision 24 x

/-! ## The member functions -/

namespace ShrikeFlash

/-- The constructor `ShrikeFlash(en_pin, pwr_pin, ss_pin, sck_pin, mosi_pin, miso_pin)`;
`_spi_speed` is left unset by the source and is taken as a parameter. -/
def new (en_pin pwr_pin ss_pin sck_pin mosi_pin miso_pin spi_speed : Nat) : ShrikeFlash :=
  { en_pin := en_pin
    pwr_pin := pwr_pin
    ss_pin := ss_pin
    sck_pin := sck_pin
    mosi_pin := mosi_pin
    miso_pin := miso_pin
    spi_speed := spi_speed
    spi_settings := none
    last_flash_time := 0
    transfer_rate := 0 }

/-- The member `void reset()`: the events it performs (it writes no field). -/
def reset (self : ShrikeFlash) : List Event :=
  [ Event.digitalWrite self.ss_pin Level.LOW,
    Event.digitalWrite self.en_pin Level.LOW,
    Event.digitalWrite self.pwr_pin Level.LOW,
    Event.delay 100,
    Event.digitalWrite self.en_pin Level.HIGH,
    Event.digitalWrite self.pwr_pin Level.HIGH,
    Event.delay 100 ]

/-- The member `bool begin(uint32_t spi_speed)`. -/
def begin (self : ShrikeFlash) (env : Env) (spi_speed : Nat) : Outcome :=
  let self1 := { self with spi_speed := spi_speed }
  let setup : List Event :=
    [ Event.pinModeOutput self1.en_pin,
      Event.pinModeOutput self1.pwr_pin,
      Event.pinModeOutput self1.ss_pin,
      Event.digitalWrite self1.ss_pin Level.HIGH,
      Event.digitalWrite self1.en_pin Level.LOW,
      Event.digitalWrite self1.pwr_pin Level.LOW,
      Event.spiSetSCK self1.sck_pin,
      Event.spiSetTX self1.mosi_pin,
      Event.spiSetRX self1.miso_pin,
      Event.spiSetCS self1.ss_pin,
      Event.spiBegin ]
  let self2 :=
    { self1 with
      spi_settings := some ⟨self1.spi_speed, BitOrder.MSBFIRST, SpiMode.SPI_MODE0⟩ }
  if !env.mountOk then
    ⟨false, self2, setup ++ [Event.serialPrintln "[ShrikeFlash] ERROR: LittleFS mount failed!"]⟩
  else
    ⟨true, self2, setup ++ [Event.serialPrintln "[ShrikeFlash] Initialized successfully"]⟩

/-- The call `file.read(buffer, n)`, the `i`-th of a flash, on a file with `rest`
left unread: the number of bytes it stores in the buffer. Whatever the
filesystem would like to return, a read returns no more bytes than were asked
for and no more than the file still has. -/
def fileRead (env : Env) (i n : Nat) (rest : List Byte) : Nat :=
  min (env.readLen i n rest.length) (min n rest.length)

/-- The streaming loop
`while ((bytesRead = file.read(buffer, word_size)) > 0) { SPI.transfer(buffer, bytesRead); totalSent += bytesRead; }`
started at the `i`-th read with `rest` unread and the counter at `totalSent`:
the transfers it issues and the final value of `totalSent` (a `size_t`). -/
def streamLoop (env : Env) (word_size : Nat) (i : Nat) (rest : List Byte) (totalSent : Nat) :
    List Event × Nat :=
  let bytesRead := fileRead env i word_size rest
  if h : 0 < bytesRead then
    let r := streamLoop env word_size (i + 1) (rest.drop bytesRead)
      ((totalSent + bytesRead) % 2 ^ 32)
    (Event.spiTransfer (rest.take bytesRead) :: r.1, r.2)
  else ([], totalSent)
termination_by rest.length
decreasing_by
  have h1 : fileRead env i word_size rest ≤ rest.length := by
    unfold fileRead
    exact le_trans (min_le_right _ _) (min_le_right _ _)
  simp only [List.length_drop]
  omega

/-- Subtraction of two `unsigned long` values: `a - b` modulo `2 ^ 32`. -/
def subUnsignedLong (a b : Nat) : Nat := (a + 2 ^ 32 - b % 2 ^ 32) % 2 ^ 32

/-- The expression
`(_last_flash_time > 0) ? (totalSent * 1000.0 / _last_flash_time / 1024.0) : 0`
converted to `float` by the assignment to `_transfer_rate`. -/
def rateOf (totalSent last_flash_time : Nat) : ℚ :=
  if 0 < last_flash_time then
    let sent := toDouble (totalSent : ℚ)
    let scaled := toDouble (sent * 1000)
    let perMs := toDouble (scaled / toDouble (last_flash_time : ℚ))
    let kb := toDouble (perMs / 1024)
    toFloat kb
  else toFloat 0

/-- The member `bool flash(const char* filename, uint32_t word_size)`. The result
is `none` when the code dereferences `_spi_settings` while it is `nullptr`
(`begin` has not run), which has no defined behaviour. -/
def flash (self : ShrikeFlash) (env : Env) (filename : String) (word_size : Nat) :
    Option Outcome :=
  let intro : List Event :=
    reset self ++
      [ Event.serialPrintln "[ShrikeFlash] Starting FPGA flash...",
        Event.serialPrint "[ShrikeFlash] Flashing: ",
        Event.serialPrintln filename ]
  if !env.existsPath filename then
    some ⟨false, self, intro ++ [Event.serialPrintln "[ShrikeFlash] ERROR: File not found"]⟩
  else
    match env.openPath filename with
    | none =>
      some ⟨false, self,
        intro ++ [Event.serialPrintln "[ShrikeFlash] ERROR: Failed to open file"]⟩
    | some content =>
      let pulse : List Event :=
        [ Event.serialPrint "[ShrikeFlash] File size: ",
          Event.serialPrintNum (content.length % 2 ^ 32),
          Event.serialPrintln " bytes",
          Event.delay 500,
          Event.digitalWrite self.ss_pin Level.HIGH,
          Event.delayMicroseconds 2000,
          Event.digitalWrite self.ss_pin Level.LOW ]
      match self.spi_settings with
      | none => none
      | some settings =>
        let startTime := env.millis 0 % 2 ^ 32
        let loop := streamLoop env word_size 0 content 0
        let last_flash_time := subUnsignedLong (env.millis 1 % 2 ^ 32) startTime
        let transfer_rate := rateOf loop.2 last_flash_time
        let self1 :=
          { self with last_flash_time := last_flash_time, transfer_rate := transfer_rate }
        some ⟨true, self1,
          intro ++ pulse ++ [Event.spiBeginTransaction settings] ++ loop.1 ++
            [ Event.spiEndTransaction,
              Event.digitalWrite self.ss_pin Level.HIGH,
              Event.fileClose,
              Event.delay 100,
              Event.serialPrintln "[ShrikeFlash] FPGA programming done.",
              Event.serialPrint "[ShrikeFlash] Time: ",
              Event.serialPrintNum last_flash_time,
              Event.serialPrint " ms, Rate: ",
              Event.serialPrintFloat transfer_rate 2,
              Event.serialPrintln " KB/s" ]⟩

/-- The value `millis() - startTime` of a flash call. -/
def elapsedOf (env : Env) : Nat :=
  subUnsignedLong (env.millis 1 % 2 ^ 32) (env.millis 0 % 2 ^ 32)

/-- The trace of a flash call that reaches its end, given the file content, the
transaction descriptor and the transfers the loop issued. -/
def completedTrace (self : ShrikeFlash) (filename : String) (content : List Byte)
    (settings : SPISettings) (loopEvents : List Event) (elapsed : Nat) (rate : ℚ) :
    List Event :=
  reset self ++
    [ Event.serialPrintln "[ShrikeFlash] Starting FPGA flash...",
      Event.serialPrint "[ShrikeFlash] Flashing: ",
      Event.serialPrintln filename ] ++
    [ Event.serialPrint "[ShrikeFlash] File size: ",
      Event.serialPrintNum (content.length % 2 ^ 32),
      Event.serialPrintln " bytes",
      Event.delay 500,
      Event.digitalWrite self.ss_pin Level.HIGH,
      Event.delayMicroseconds 2000,
      Event.digitalWrite self.ss_pin Level.LOW ] ++
    [Event.spiBeginTransaction settings] ++ loopEvents ++
    [ Event.spiEndTransaction,
      Event.digitalWrite self.ss_pin Level.HIGH,
      Event.fileClose,
      Event.delay 100,
      Event.serialPrintln "[ShrikeFlash] FPGA programming done.",
      Event.serialPrint "[ShrikeFlash] Time: ",
      Event.serialPrintNum elapsed,
      Event.serialPrint " ms, Rate: ",
      Event.serialPrintFloat rate 2,
      Event.serialPrintln " KB/s" ]

/-- An object as `begin(1600000)` leaves it after construction with the default
pins of the header (enable 13, power 12, ss 1, sck 2, mosi 3, miso 0). -/
def defaultDevice : ShrikeFlash :=
  { en_pin := 13
    pwr_pin := 12
    ss_pin := 1
    sck_pin := 2
    mosi_pin := 3
    miso_pin := 0
    spi_speed := 1600000
    spi_settings := some ⟨1600000, BitOrder.MSBFIRST, SpiMode.SPI_MODE0⟩
    last_flash_time := 0
    transfer_rate := 0 }

/-- A filesystem in which every path opens to `content` and every read fills the
buffer as far as the file allows, with a clock that reads `t0` at the first call
of `millis()` and `t1` afterwards. -/
def fullReadEnv (content : List Byte) (t0 t1 : Nat) : Env :=
  { mountOk := true
    existsPath := fun _ => true
    openPath := fun _ => some content
    readLen := fun _ n _ => n
    millis := fun k => if k = 0 then t0 else t1 }

/-- A filesystem as `fullReadEnv`, except that every other read, starting with
the first, stores a single byte. -/
def shortReadEnv (content : List Byte) (t0 t1 : Nat) : Env :=
  { mountOk := true
    existsPath := fun _ => true
    openPath := fun _ => some content
    readLen := fun i n _ => if i % 2 = 0 then 1 else n
    millis := fun k => if k = 0 then t0 else t1 }

/-- A filesystem that holds no file at all. -/
def emptyFsEnv : Env :=
  { mountOk := true
    existsPath := fun _ => false
    openPath := fun _ => none
    readLen := fun _ n _ => n
    millis := fun _ => 0 }

/-- The member `unsigned long getLastFlashTime()`. -/
def getLastFlashTime (self : ShrikeFlash) : Nat := self.last_flash_time

/-- The member `float getTransferRate()`. -/
def getTransferRate (self : ShrikeFlash) : ℚ := self.transfer_rate

end ShrikeFlash

/-! ## Traces: structural lemmas -/

theorem replay_append (pins : PinLevels) (a b : List Event) :
    replay pins (a ++ b) = replay (replay pins a) b := by
  simp [replay, List.foldl_append]

theorem hardware_append (a b : List Event) : hardware (a ++ b) = hardware a ++ hardware b := by
  simp [hardware]

theorem serialLog_append (a b : List Event) :
    serialLog (a ++ b) = serialLog a ++ serialLog b := by
  simp [serialLog]

theorem transfers_append (a b : List Event) : transfers (a ++ b) = transfers a ++ transfers b := by
  induction a with
  | nil => rfl
  | cons e es ih => cases e <;> simp [transfers, ih]

theorem transfers_map_spiTransfer (bs : List (List Byte)) :
    transfers (bs.map Event.spiTransfer) = bs := by
  induction bs with
  | nil => rfl
  | cons b bs ih => simp [transfers, ih]

theorem hardware_map_spiTransfer (bs : List (List Byte)) :
    hardware (bs.map Event.spiTransfer) = bs.map Event.spiTransfer := by
  induction bs with
  | nil => rfl
  | cons b bs ih =>
    simp only [hardware] at ih
    simp [hardware, Event.isSerial, ih]

theorem serialLog_map_spiTransfer (bs : List (List Byte)) :
    serialLog (bs.map Event.spiTransfer) = [] := by
  induction bs with
  | nil => rfl
  | cons b bs ih =>
    simp only [serialLog] at ih
    simp [serialLog, Event.isSerial, ih]

theorem replay_map_spiTransfer (pins : PinLevels) (bs : List (List Byte)) :
    replay pins (bs.map Event.spiTransfer) = pins := by
  induction bs with
  | nil => rfl
  | cons b bs ih =>
    simp only [replay] at ih
    simp [replay, applyEvent, ih]

theorem ssProfile_append (ss : Nat) (pins : PinLevels) (a b : List Event) :
    ssProfile ss pins (a ++ b) = ssProfile ss pins a ++ ssProfile ss (replay pins a) b := by
  induction a generalizing pins with
  | nil => rfl
  | cons e es ih =>
    by_cases h : e.isTimed = true <;> simp [ssProfile, h, ih, replay]

theorem ssProfile_map_spiTransfer (ss : Nat) (pins : PinLevels) (bs : List (List Byte)) :
    ssProfile ss pins (bs.map Event.spiTransfer) =
      bs.map (fun b => (Event.spiTransfer b, pins ss)) := by
  induction bs with
  | nil => rfl
  | cons b bs ih => simp [ssProfile, Event.isTimed, Event.isSpiTraffic, applyEvent, ih]

theorem transfersGuarded_map_spiTransfer (ss : Nat) (pins : PinLevels) (tail : List Event)
    (bs : List (List Byte)) (hlow : pins ss = Level.LOW) :
    transfersGuarded ss pins true (bs.map Event.spiTransfer ++ tail) =
      transfersGuarded ss pins true tail := by
  induction bs with
  | nil => rfl
  | cons b bs ih => simp [transfersGuarded, hlow, ih]

/-! ## The streaming loop -/

namespace ShrikeFlash

theorem fileRead_le_request (env : Env) (i n : Nat) (rest : List Byte) :
    fileRead env i n rest ≤ n :=
  le_trans (min_le_right _ _) (min_le_left _ _)

theorem fileRead_le_length (env : Env) (i n : Nat) (rest : List Byte) :
    fileRead env i n rest ≤ rest.length :=
  le_trans (min_le_right _ _) (min_le_right _ _)

/-- The loop issues nothing but transfers. -/
theorem streamLoop_events (env : Env) (ws i : Nat) (rest : List Byte) (t : Nat) :
    (streamLoop env ws i rest t).1 =
      (transfers (streamLoop env ws i rest t).1).map Event.spiTransfer := by
  induction i, rest, t using streamLoop.induct env ws with
  | case1 i rest t bytesRead h ih =>
    rw [streamLoop, dif_pos h]
    simp only [transfers, List.map_cons]
    rw [← ih]
  | case2 i rest t bytesRead h =>
    rw [streamLoop, dif_neg h]
    rfl

/-- Every transfer carries at least one byte and at most `word_size` bytes. -/
theorem streamLoop_chunk_bounds (env : Env) (ws i : Nat) (rest : List Byte) (t : Nat) :
    ∀ b ∈ transfers (streamLoop env ws i rest t).1, 0 < b.length ∧ b.length ≤ ws := by
  induction i, rest, t using streamLoop.induct env ws with
  | case1 i rest t bytesRead h ih =>
    rw [streamLoop, dif_pos h]
    intro b hb
    simp only [transfers, List.mem_cons] at hb
    rcases hb with hb | hb
    · have h1 := fileRead_le_length env i ws rest
      have h2 := fileRead_le_request env i ws rest
      subst hb
      rw [List.length_take]
      constructor
      · exact lt_min h (lt_of_lt_of_le h h1)
      · exact le_trans (min_le_left _ _) h2
    · exact ih b hb
  | case2 i rest t bytesRead h =>
    rw [streamLoop, dif_neg h]
    intro b hb
    simp [transfers] at hb

/-- The transfers are consecutive pieces of the unread part of the file, and what
they leave out is a tail on which the next read returned zero. -/
theorem streamLoop_consumes (env : Env) (ws i : Nat) (rest : List Byte) (t : Nat) :
    ∃ (j : Nat) (tail : List Byte),
      (transfers (streamLoop env ws i rest t).1).flatten ++ tail = rest ∧
        fileRead env j ws tail = 0 := by
  induction i, rest, t using streamLoop.induct env ws with
  | case1 i rest t bytesRead h ih =>
    obtain ⟨j, tail, h1, h2⟩ := ih
    refine ⟨j, tail, ?_, h2⟩
    rw [streamLoop, dif_pos h]
    simp only [transfers, List.flatten_cons, List.append_assoc]
    rw [h1]
    exact List.take_append_drop _ _
  | case2 i rest t bytesRead h =>
    refine ⟨i, rest, ?_, ?_⟩
    · rw [streamLoop, dif_neg h]
      simp [transfers]
    · exact Nat.eq_zero_of_not_pos h

/-- The counter `totalSent` ends at its start value plus the bytes transferred,
in 32-bit arithmetic. -/
theorem streamLoop_totalSent (env : Env) (ws i : Nat) (rest : List Byte) (t : Nat)
    (ht : t < 2 ^ 32) :
    (streamLoop env ws i rest t).2 =
      (t + (transfers (streamLoop env ws i rest t).1).flatten.length) % 2 ^ 32 := by
  induction i, rest, t using streamLoop.induct env ws with
  | case1 i rest t bytesRead h ih =>
    have h1 := fileRead_le_length env i ws rest
    rw [streamLoop, dif_pos h]
    simp only [transfers, List.flatten_cons, List.length_append, List.length_take]
    rw [ih (Nat.mod_lt _ (by norm_num))]
    rw [min_eq_left h1, Nat.add_mod, Nat.mod_mod, ← Nat.add_mod, Nat.add_assoc]
  | case2 i rest t bytesRead h =>
    rw [streamLoop, dif_neg h]
    simp only [transfers, List.flatten_nil, List.length_nil, Nat.add_zero]
    exact (Nat.mod_eq_of_lt ht).symm

end ShrikeFlash

/-! ## Reset and begin -/

namespace ShrikeFlash

/-- Levels after `reset`, pin by pin: a pin keeps its level unless it is one of
the three pins written, and the last write to it wins. -/
theorem replay_reset (self : ShrikeFlash) (pins : PinLevels) (q : Nat) :
    replay pins (reset self) q =
      if q = self.pwr_pin then Level.HIGH
      else if q = self.en_pin then Level.HIGH
      else if q = self.ss_pin then Level.LOW
      else pins q := by
  simp only [reset, replay, List.foldl_cons, List.foldl_nil, applyEvent]
  by_cases h1 : q = self.pwr_pin
  · simp [h1]
  · by_cases h2 : q = self.en_pin
    · simp [h1, h2]
    · simp [h1, h2]

/-- C6. From any prior pin levels `reset` performs exactly: ss low, enable low,
power low, wait 100 ms, enable high, power high, wait 100 ms. The levels it
leaves on the three pins are the same from any two prior states; with the ss
pin distinct from the enable and power pins they are ss low, enable high, power
high; and two resets in a row leave the same levels as one. -/
theorem reset_sequence (self : ShrikeFlash) (pins : PinLevels) :
    reset self =
        [ Event.digitalWrite self.ss_pin Level.LOW,
          Event.digitalWrite self.en_pin Level.LOW,
          Event.digitalWrite self.pwr_pin Level.LOW,
          Event.delay 100,
          Event.digitalWrite self.en_pin Level.HIGH,
          Event.digitalWrite self.pwr_pin Level.HIGH,
          Event.delay 100 ] ∧
      (∀ other : PinLevels, ∀ q : Nat,
        q = self.ss_pin ∨ q = self.en_pin ∨ q = self.pwr_pin →
          replay pins (reset self) q = replay other (reset self) q) ∧
      (self.ss_pin ≠ self.en_pin → self.ss_pin ≠ self.pwr_pin →
        replay pins (reset self) self.ss_pin = Level.LOW ∧
          replay pins (reset self) self.en_pin = Level.HIGH ∧
          replay pins (reset self) self.pwr_pin = Level.HIGH) ∧
      replay pins (reset self ++ reset self) = replay pins (reset self) := by
  refine ⟨rfl, ?_, ?_, ?_⟩
  · intro other q hq
    rw [replay_reset, replay_reset]
    rcases hq with hq | hq | hq
    · simp [hq]
    · simp [hq]
    · simp [hq]
  · intro hen hpwr
    refine ⟨?_, ?_, ?_⟩
    · rw [replay_reset]
      simp [hen, hpwr]
    · rw [replay_reset]
      simp
    · rw [replay_reset]
      simp
  · funext q
    rw [replay_append, replay_reset, replay_reset]
    by_cases h1 : q = self.pwr_pin
    · simp [h1]
    · by_cases h2 : q = self.en_pin
      · simp [h1, h2]
      · by_cases h3 : q = self.ss_pin
        · simp [h1, h2, h3]
        · simp [h1, h2, h3]

/-- C6 at the default pins (enable 13, power 12, ss 1) and all pins low before. -/
theorem reset_sequence_witness :
    replay (fun _ => Level.LOW) (reset (new 13 12 1 2 3 0 1600000)) 1 = Level.LOW ∧
      replay (fun _ => Level.LOW) (reset (new 13 12 1 2 3 0 1600000)) 13 = Level.HIGH ∧
      replay (fun _ => Level.LOW) (reset (new 13 12 1 2 3 0 1600000)) 12 = Level.HIGH :=
  (reset_sequence (new 13 12 1 2 3 0 1600000) (fun _ => Level.LOW)).2.2.1
    (by decide) (by decide)

/-- C8. For every pin assignment and bit rate, `begin` configures the enable,
power and ss pins as outputs and then drives ss high, enable low, power low
(leaving those levels when the ss pin is distinct from the other two); it
returns true exactly when the mount succeeds; when the mount fails it returns
false and its whole serial output is one error line; and it leaves
`last_flash_time` and `transfer_rate` as they were. -/
theorem begin_contract (self : ShrikeFlash) (env : Env) (spi_speed : Nat) (pins : PinLevels) :
    (begin self env spi_speed).trace =
        [ Event.pinModeOutput self.en_pin,
          Event.pinModeOutput self.pwr_pin,
          Event.pinModeOutput self.ss_pin,
          Event.digitalWrite self.ss_pin Level.HIGH,
          Event.digitalWrite self.en_pin Level.LOW,
          Event.digitalWrite self.pwr_pin Level.LOW,
          Event.spiSetSCK self.sck_pin,
          Event.spiSetTX self.mosi_pin,
          Event.spiSetRX self.miso_pin,
          Event.spiSetCS self.ss_pin,
          Event.spiBegin,
          Event.serialPrintln
            (if env.mountOk = true then "[ShrikeFlash] Initialized successfully"
             else "[ShrikeFlash] ERROR: LittleFS mount failed!") ] ∧
      (self.ss_pin ≠ self.en_pin → self.ss_pin ≠ self.pwr_pin →
        replay pins (begin self env spi_speed).trace self.ss_pin = Level.HIGH ∧
          replay pins (begin self env spi_speed).trace self.en_pin = Level.LOW ∧
          replay pins (begin self env spi_speed).trace self.pwr_pin = Level.LOW) ∧
      ((begin self env spi_speed).ret = true ↔ env.mountOk = true) ∧
      (env.mountOk = false →
        (begin self env spi_speed).ret = false ∧
          serialLog (begin self env spi_speed).trace =
            [Event.serialPrintln "[ShrikeFlash] ERROR: LittleFS mount failed!"]) ∧
      (begin self env spi_speed).self.last_flash_time = self.last_flash_time ∧
      (begin self env spi_speed).self.transfer_rate = self.transfer_rate := by
  cases hm : env.mountOk
  · refine ⟨?_, ?_, ?_, ?_, ?_, ?_⟩
    · simp [begin, hm]
    · intro hen hpwr
      by_cases h : self.en_pin = self.pwr_pin <;>
        simp [begin, hm, replay, applyEvent, hen, hpwr, h]
    · simp [begin, hm]
    · intro _
      simp [begin, hm, serialLog, Event.isSerial]
    · simp [begin, hm]
    · simp [begin, hm]
  · refine ⟨?_, ?_, ?_, ?_, ?_, ?_⟩
    · simp [begin, hm]
    · intro hen hpwr
      by_cases h : self.en_pin = self.pwr_pin <;>
        simp [begin, hm, replay, applyEvent, hen, hpwr, h]
    · simp [begin, hm]
    · intro h
      cases h
    · simp [begin, hm]
    · simp [begin, hm]

/-- C8 at the default pins and bit rate, with every pin low before the call and
a filesystem that fails to mount. -/
theorem begin_contract_witness :
    (replay (fun _ => Level.LOW)
          (begin (new 13 12 1 2 3 0 0) { emptyFsEnv with mountOk := false } 1600000).trace 1 =
          Level.HIGH ∧
        replay (fun _ => Level.LOW)
          (begin (new 13 12 1 2 3 0 0) { emptyFsEnv with mountOk := false } 1600000).trace 13 =
          Level.LOW ∧
        replay (fun _ => Level.LOW)
          (begin (new 13 12 1 2 3 0 0) { emptyFsEnv with mountOk := false } 1600000).trace 12 =
          Level.LOW) ∧
      (begin (new 13 12 1 2 3 0 0) { emptyFsEnv with mountOk := false } 1600000).ret = false ∧
      serialLog
          (begin (new 13 12 1 2 3 0 0) { emptyFsEnv with mountOk := false } 1600000).trace =
        [Event.serialPrintln "[ShrikeFlash] ERROR: LittleFS mount failed!"] :=
  ⟨(begin_contract (new 13 12 1 2 3 0 0) { emptyFsEnv with mountOk := false } 1600000
      (fun _ => Level.LOW)).2.1 (by decide) (by decide),
    (begin_contract (new 13 12 1 2 3 0 0) { emptyFsEnv with mountOk := false } 1600000
      (fun _ => Level.LOW)).2.2.2.1 rfl⟩

end ShrikeFlash

/-! ## Flash: the shape of a call -/

namespace ShrikeFlash

/-- A call on a file that exists and opens, on an object that `begin` has set
up, runs to its end and returns true. -/
theorem flash_of_open (self : ShrikeFlash) (env : Env) (filename : String) (ws : Nat)
    (content : List Byte) (settings : SPISettings)
    (hex : env.existsPath filename = true) (hop : env.openPath filename = some content)
    (hset : self.spi_settings = some settings) :
    flash self env filename ws =
      some
        ⟨true,
          { self with
            last_flash_time := elapsedOf env
            transfer_rate := rateOf (streamLoop env ws 0 content 0).2 (elapsedOf env) },
          completedTrace self filename content settings (streamLoop env ws 0 content 0).1
            (elapsedOf env) (rateOf (streamLoop env ws 0 content 0).2 (elapsedOf env))⟩ := by
  simp [flash, hex, hop, hset, completedTrace, elapsedOf]

/-- A call on a path the filesystem does not have stops after the reset and the
log lines. -/
theorem flash_of_missing (self : ShrikeFlash) (env : Env) (filename : String) (ws : Nat)
    (hex : env.existsPath filename = false) :
    flash self env filename ws =
      some
        ⟨false, self,
          reset self ++
            [ Event.serialPrintln "[ShrikeFlash] Starting FPGA flash...",
              Event.serialPrint "[ShrikeFlash] Flashing: ",
              Event.serialPrintln filename,
              Event.serialPrintln "[ShrikeFlash] ERROR: File not found" ]⟩ := by
  simp [flash, hex]

/-- A call on a path that exists but does not open stops after the reset and the
log lines. -/
theorem flash_of_unopenable (self : ShrikeFlash) (env : Env) (filename : String) (ws : Nat)
    (hex : env.existsPath filename = true) (hop : env.openPath filename = none) :
    flash self env filename ws =
      some
        ⟨false, self,
          reset self ++
            [ Event.serialPrintln "[ShrikeFlash] Starting FPGA flash...",
              Event.serialPrint "[ShrikeFlash] Flashing: ",
              Event.serialPrintln filename,
              Event.serialPrintln "[ShrikeFlash] ERROR: Failed to open file" ]⟩ := by
  simp [flash, hex, hop]

/-- A call that reaches `SPI.beginTransaction(*_spi_settings)` on an object on
which `begin` has not run dereferences a null pointer. -/
theorem flash_before_begin (self : ShrikeFlash) (env : Env) (filename : String) (ws : Nat)
    (content : List Byte)
    (hex : env.existsPath filename = true) (hop : env.openPath filename = some content)
    (hset : self.spi_settings = none) : flash self env filename ws = none := by
  simp [flash, hex, hop, hset]

/-- The object `defaultDevice` is what `begin(1600000)` makes of a freshly
constructed object with the default pins. -/
theorem begin_new_eq_defaultDevice (env : Env) (spi_speed : Nat) :
    (begin (new 13 12 1 2 3 0 spi_speed) env 1600000).self = defaultDevice := by
  cases hm : env.mountOk <;> simp [begin, new, defaultDevice, hm]

/-- A call that returns true found the file, opened it, had a transaction
descriptor, and ran to its end. -/
theorem flash_true_shape (self : ShrikeFlash) (env : Env) (filename : String) (ws : Nat)
    (o : Outcome) (h : flash self env filename ws = some o) (hret : o.ret = true) :
    ∃ (content : List Byte) (settings : SPISettings),
      env.existsPath filename = true ∧ env.openPath filename = some content ∧
        self.spi_settings = some settings ∧
        o.self.last_flash_time = elapsedOf env ∧
        o.self.transfer_rate = rateOf (streamLoop env ws 0 content 0).2 (elapsedOf env) ∧
        o.trace =
          completedTrace self filename content settings (streamLoop env ws 0 content 0).1
            (elapsedOf env) (rateOf (streamLoop env ws 0 content 0).2 (elapsedOf env)) := by
  cases hex : env.existsPath filename with
  | false =>
    rw [flash_of_missing self env filename ws hex] at h
    cases h
    cases hret
  | true =>
    cases hop : env.openPath filename with
    | none =>
      rw [flash_of_unopenable self env filename ws hex hop] at h
      cases h
      cases hret
    | some content =>
      cases hset : self.spi_settings with
      | none => simp [flash, hex, hop, hset] at h
      | some settings =>
        rw [flash_of_open self env filename ws content settings hex hop hset] at h
        cases h
        exact ⟨content, settings, rfl, rfl, rfl, rfl, rfl, rfl⟩

/-- The pin, bus and file events of a completed call. -/
theorem hardware_completedTrace (self : ShrikeFlash) (filename : String) (content : List Byte)
    (settings : SPISettings) (chunks : List (List Byte)) (elapsed : Nat) (rate : ℚ) :
    hardware
        (completedTrace self filename content settings (chunks.map Event.spiTransfer)
          elapsed rate) =
      reset self ++
        [ Event.delay 500,
          Event.digitalWrite self.ss_pin Level.HIGH,
          Event.delayMicroseconds 2000,
          Event.digitalWrite self.ss_pin Level.LOW,
          Event.spiBeginTransaction settings ] ++
        chunks.map Event.spiTransfer ++
        [ Event.spiEndTransaction,
          Event.digitalWrite self.ss_pin Level.HIGH,
          Event.fileClose,
          Event.delay 100 ] := by
  simp only [completedTrace, hardware_append, hardware_map_spiTransfer]
  simp [hardware, reset, Event.isSerial]

/-- The buffers transferred by a completed call are those of its loop. -/
theorem transfers_completedTrace (self : ShrikeFlash) (filename : String) (content : List Byte)
    (settings : SPISettings) (chunks : List (List Byte)) (elapsed : Nat) (rate : ℚ) :
    transfers
        (completedTrace self filename content settings (chunks.map Event.spiTransfer)
          elapsed rate) = chunks := by
  simp only [completedTrace, transfers_append, transfers_map_spiTransfer]
  simp [transfers, reset]

end ShrikeFlash

/-! ## Flash: failure before the bus is touched -/

namespace ShrikeFlash

/-- C3. When the path is missing, or exists but does not open, `flash` returns
false, performs no `SPI.beginTransaction`, `SPI.transfer` or
`SPI.endTransaction`, leaves the object (hence `last_flash_time` and
`transfer_rate`) as it was, and its only pin, bus and file activity is the reset
sub-sequence. -/
theorem flash_fails_without_bus (self : ShrikeFlash) (env : Env) (filename : String) (ws : Nat)
    (h : env.existsPath filename = false ∨
      (env.existsPath filename = true ∧ env.openPath filename = none)) :
    ∃ o : Outcome,
      flash self env filename ws = some o ∧ o.ret = false ∧
        (∀ e ∈ o.trace, e.isSpiTraffic = false) ∧
        o.self = self ∧
        o.self.last_flash_time = self.last_flash_time ∧
        o.self.transfer_rate = self.transfer_rate ∧
        hardware o.trace = reset self := by
  rcases h with hex | ⟨hex, hop⟩
  · refine ⟨_, flash_of_missing self env filename ws hex, rfl, ?_, rfl, rfl, rfl, ?_⟩
    · intro e he
      simp only [reset, List.cons_append, List.nil_append, List.mem_cons] at he
      rcases he with he | he | he | he | he | he | he | he | he | he | he | he <;>
        first
          | (subst he; rfl)
          | simp at he
    · simp [hardware, reset, Event.isSerial]
  · refine ⟨_, flash_of_unopenable self env filename ws hex hop, rfl, ?_, rfl, rfl, rfl, ?_⟩
    · intro e he
      simp only [reset, List.cons_append, List.nil_append, List.mem_cons] at he
      rcases he with he | he | he | he | he | he | he | he | he | he | he | he <;>
        first
          | (subst he; rfl)
          | simp at he
    · simp [hardware, reset, Event.isSerial]

/-- C3 at a filesystem that holds no file, on an object with statistics 7 ms and
3 KB/s from an earlier call. -/
theorem flash_fails_without_bus_witness :
    ∃ o : Outcome,
      flash { defaultDevice with last_flash_time := 7, transfer_rate := 3 } emptyFsEnv
          "/led_blink.bin" 46408 = some o ∧
        o.ret = false ∧ (∀ e ∈ o.trace, e.isSpiTraffic = false) ∧
        o.self = { defaultDevice with last_flash_time := 7, transfer_rate := 3 } ∧
        o.self.last_flash_time = 7 ∧ o.self.transfer_rate = 3 ∧
        hardware o.trace = reset { defaultDevice with last_flash_time := 7, transfer_rate := 3 } :=
  flash_fails_without_bus { defaultDevice with last_flash_time := 7, transfer_rate := 3 }
    emptyFsEnv "/led_blink.bin" 46408 (Or.inl rfl)

end ShrikeFlash

/-! ## Flash: the completed call -/

namespace ShrikeFlash

theorem countP_begin_map_spiTransfer (bs : List (List Byte)) :
    (bs.map Event.spiTransfer).countP Event.isBeginTransaction = 0 := by
  induction bs with
  | nil => rfl
  | cons b bs ih => simp [List.countP_cons, Event.isBeginTransaction, ih]

theorem countP_end_map_spiTransfer (bs : List (List Byte)) :
    (bs.map Event.spiTransfer).countP Event.isEndTransaction = 0 := by
  induction bs with
  | nil => rfl
  | cons b bs ih => simp [List.countP_cons, Event.isEndTransaction, ih]

/-- A completed call opens the transaction once and closes it once. -/
theorem count_transactions_completedTrace (self : ShrikeFlash) (filename : String)
    (content : List Byte) (settings : SPISettings) (chunks : List (List Byte)) (elapsed : Nat)
    (rate : ℚ) :
    (completedTrace self filename content settings (chunks.map Event.spiTransfer)
          elapsed rate).countP Event.isBeginTransaction = 1 ∧
      (completedTrace self filename content settings (chunks.map Event.spiTransfer)
          elapsed rate).countP Event.isEndTransaction = 1 := by
  simp only [completedTrace, List.countP_append, countP_begin_map_spiTransfer,
    countP_end_map_spiTransfer]
  simp [reset, List.countP_cons, Event.isBeginTransaction, Event.isEndTransaction]

/-- In a completed call every transfer happens inside the transaction and with
ss low, whatever the levels were before the call. -/
theorem transfersGuarded_completedTrace (self : ShrikeFlash) (filename : String)
    (content : List Byte) (settings : SPISettings) (chunks : List (List Byte)) (elapsed : Nat)
    (rate : ℚ) (pins : PinLevels) :
    transfersGuarded self.ss_pin pins false
        (completedTrace self filename content settings (chunks.map Event.spiTransfer)
          elapsed rate) = true := by
  simp only [completedTrace, reset, List.append_assoc, List.cons_append, List.nil_append,
    transfersGuarded]
  show transfersGuarded _ _ true (List.map Event.spiTransfer chunks ++ _) = true
  rw [transfersGuarded_map_spiTransfer]
  · simp [transfersGuarded]
  · simp [applyEvent]

/-- C9. In every call that returns true, the pin, bus and file events after the
reset sub-sequence are exactly: wait 500 ms, ss high, wait 2000 µs, ss low,
begin transaction, the transfers, end transaction, ss high, file close, wait
100 ms. The transaction is begun once and ended once, and every transfer
happens inside it with ss low. -/
theorem flash_true_trace (self : ShrikeFlash) (env : Env) (filename : String) (ws : Nat)
    (o : Outcome) (pins : PinLevels)
    (h : flash self env filename ws = some o) (hret : o.ret = true) :
    ∃ settings : SPISettings,
      self.spi_settings = some settings ∧
        hardware o.trace =
          reset self ++
            [ Event.delay 500,
              Event.digitalWrite self.ss_pin Level.HIGH,
              Event.delayMicroseconds 2000,
              Event.digitalWrite self.ss_pin Level.LOW,
              Event.spiBeginTransaction settings ] ++
            (transfers o.trace).map Event.spiTransfer ++
            [ Event.spiEndTransaction,
              Event.digitalWrite self.ss_pin Level.HIGH,
              Event.fileClose,
              Event.delay 100 ] ∧
        o.trace.countP Event.isBeginTransaction = 1 ∧
        o.trace.countP Event.isEndTransaction = 1 ∧
        transfersGuarded self.ss_pin pins false o.trace = true := by
  obtain ⟨content, settings, _, _, hset, _, _, htrace⟩ :=
    flash_true_shape self env filename ws o h hret
  rw [streamLoop_events] at htrace
  refine ⟨settings, hset, ?_, ?_, ?_, ?_⟩
  · rw [htrace, transfers_completedTrace, hardware_completedTrace]
  · rw [htrace]
    exact (count_transactions_completedTrace _ _ _ _ _ _ _).1
  · rw [htrace]
    exact (count_transactions_completedTrace _ _ _ _ _ _ _).2
  · rw [htrace]
    exact transfersGuarded_completedTrace _ _ _ _ _ _ _ _

/-- C9 on a five-byte file sent in chunks of 2 bytes. -/
theorem flash_true_trace_witness :
    ∃ o : Outcome,
      flash defaultDevice (fullReadEnv [10, 20, 30, 40, 50] 0 3) "/led_blink.bin" 2 = some o ∧
        o.ret = true ∧
        ∃ settings : SPISettings,
          defaultDevice.spi_settings = some settings ∧
            hardware o.trace =
              reset defaultDevice ++
                [ Event.delay 500,
                  Event.digitalWrite defaultDevice.ss_pin Level.HIGH,
                  Event.delayMicroseconds 2000,
                  Event.digitalWrite defaultDevice.ss_pin Level.LOW,
                  Event.spiBeginTransaction settings ] ++
                (transfers o.trace).map Event.spiTransfer ++
                [ Event.spiEndTransaction,
                  Event.digitalWrite defaultDevice.ss_pin Level.HIGH,
                  Event.fileClose,
                  Event.delay 100 ] ∧
            o.trace.countP Event.isBeginTransaction = 1 ∧
            o.trace.countP Event.isEndTransaction = 1 ∧
            transfersGuarded defaultDevice.ss_pin (fun _ => Level.HIGH) false o.trace = true :=
  ⟨_,
    flash_of_open defaultDevice (fullReadEnv [10, 20, 30, 40, 50] 0 3) "/led_blink.bin" 2
      [10, 20, 30, 40, 50] ⟨1600000, BitOrder.MSBFIRST, SpiMode.SPI_MODE0⟩ rfl rfl rfl,
    rfl,
    flash_true_trace defaultDevice (fullReadEnv [10, 20, 30, 40, 50] 0 3) "/led_blink.bin" 2 _
      (fun _ => Level.HIGH)
      (flash_of_open defaultDevice (fullReadEnv [10, 20, 30, 40, 50] 0 3) "/led_blink.bin" 2
        [10, 20, 30, 40, 50] ⟨1600000, BitOrder.MSBFIRST, SpiMode.SPI_MODE0⟩ rfl rfl rfl)
      rfl⟩

end ShrikeFlash

/-! ## Flash: how the file is cut into transfers -/

namespace ShrikeFlash

/-- The chunk lengths of a file of `n` bytes cut by full reads of `c` bytes. -/
theorem chunkLengths_step (n c : Nat) (hc : 0 < c) (hn : c ≤ n) :
    List.replicate (n / c) c ++ (if n % c = 0 then [] else [n % c]) =
      c :: (List.replicate ((n - c) / c) c ++ (if (n - c) % c = 0 then [] else [(n - c) % c])) := by
  have h1 : n / c = (n - c) / c + 1 := by
    rw [Nat.div_eq_sub_div hc hn]
  have h2 : n % c = (n - c) % c := Nat.mod_eq_sub_mod hn
  rw [h1, h2, List.replicate_succ, List.cons_append]

/-- When every read returns `min word_size remaining`, the loop cuts the unread
part into `remaining / word_size` transfers of `word_size` bytes followed, if a
remainder is left, by one transfer of `remaining % word_size` bytes. -/
theorem streamLoop_full_reads (env : Env) (ws : Nat) (hws : 0 < ws)
    (hfull : ∀ (i : Nat) (rest : List Byte), fileRead env i ws rest = min ws rest.length)
    (i : Nat) (rest : List Byte) (t : Nat) :
    (transfers (streamLoop env ws i rest t).1).map List.length =
      List.replicate (rest.length / ws) ws ++
        (if rest.length % ws = 0 then [] else [rest.length % ws]) := by
  induction i, rest, t using streamLoop.induct env ws with
  | case1 i rest t bytesRead h ih =>
    have hb : bytesRead = min ws rest.length := hfull i rest
    rw [streamLoop, dif_pos h]
    simp only [transfers, List.map_cons, List.length_take]
    rw [ih]
    simp only [List.length_drop]
    show min bytesRead rest.length :: _ = _
    rw [hb]
    by_cases hle : ws ≤ rest.length
    · rw [min_eq_left hle, min_eq_left hle, chunkLengths_step _ _ hws hle]
    · have hlt : rest.length < ws := Nat.lt_of_not_le hle
      have hpos : 0 < rest.length := by
        have : 0 < min ws rest.length := hb ▸ h
        exact lt_of_lt_of_le this (min_le_right _ _)
      rw [min_eq_right (le_of_lt hlt), min_self, Nat.sub_self, Nat.div_eq_of_lt hlt,
        Nat.mod_eq_of_lt hlt, Nat.zero_div, Nat.zero_mod]
      simp [Nat.ne_of_gt hpos]
  | case2 i rest t bytesRead h =>
    have hb : bytesRead = min ws rest.length := hfull i rest
    have hz : rest.length = 0 := by
      have h0 : min ws rest.length = 0 := by
        rw [← hb]
        exact Nat.eq_zero_of_not_pos h
      rcases Nat.le_total ws rest.length with hle | hle
      · rw [min_eq_left hle] at h0
        omega
      · rw [min_eq_right hle] at h0
        exact h0
    rw [streamLoop, dif_neg h, hz]
    simp [transfers]

/-- C1. In every call that returns true on a file of `F` bytes with chunk size
`C > 0`, where every read returns `min C remaining`, the transfer lengths are
`F / C` times `C` followed by `F % C` when that is not zero. Hence there are
`⌈F / C⌉` transfers, each but possibly the last of length exactly `C`, none of
length zero, and a file of `2 * C` bytes gives exactly two transfers of `C`. -/
theorem flash_transfer_lengths (self : ShrikeFlash) (env : Env) (filename : String) (ws : Nat)
    (o : Outcome) (h : flash self env filename ws = some o) (hret : o.ret = true)
    (hws : 0 < ws)
    (hfull : ∀ (i : Nat) (rest : List Byte), fileRead env i ws rest = min ws rest.length) :
    ∃ content : List Byte,
      env.openPath filename = some content ∧
        (transfers o.trace).map List.length =
          List.replicate (content.length / ws) ws ++
            (if content.length % ws = 0 then [] else [content.length % ws]) ∧
        (transfers o.trace).length = (content.length + ws - 1) / ws ∧
        (∀ k : Nat, k + 1 < (transfers o.trace).length →
          ((transfers o.trace).map List.length)[k]? = some ws) ∧
        (∀ b ∈ transfers o.trace, 0 < b.length ∧ b.length ≤ ws) ∧
        (content.length = 2 * ws → (transfers o.trace).map List.length = [ws, ws]) := by
  obtain ⟨content, settings, _, hop, _, _, _, htrace⟩ :=
    flash_true_shape self env filename ws o h hret
  have hbounds := streamLoop_chunk_bounds env ws 0 content 0
  have hlens := streamLoop_full_reads env ws hws hfull 0 content 0
  rw [streamLoop_events] at htrace
  have htr : transfers o.trace = transfers (streamLoop env ws 0 content 0).1 := by
    rw [htrace, transfers_completedTrace]
  rw [← htr] at hbounds hlens
  have hcount : (transfers o.trace).length = (content.length + ws - 1) / ws := by
    have hl := congrArg List.length hlens
    rw [List.length_map, List.length_append, List.length_replicate] at hl
    rw [hl]
    have hdm : content.length / ws * ws + content.length % ws = content.length := by
      rw [Nat.mul_comm]
      exact Nat.div_add_mod content.length ws
    have hlt := Nat.mod_lt content.length hws
    symm
    by_cases hm : content.length % ws = 0
    · rw [if_pos hm, List.length_nil, Nat.add_zero]
      apply Nat.div_eq_of_lt_le
      · omega
      · rw [Nat.succ_mul]
        omega
    · rw [if_neg hm, List.length_singleton]
      apply Nat.div_eq_of_lt_le
      · rw [Nat.succ_mul]
        omega
      · rw [Nat.succ_mul, Nat.succ_mul]
        omega
  refine ⟨content, hop, hlens, hcount, ?_, hbounds, ?_⟩
  · intro k hk
    have hl := congrArg List.length hlens
    rw [List.length_map, List.length_append, List.length_replicate] at hl
    have hk2 : k < content.length / ws := by
      by_cases hm : content.length % ws = 0
      · rw [if_pos hm, List.length_nil] at hl
        omega
      · rw [if_neg hm, List.length_singleton] at hl
        omega
    rw [hlens, List.getElem?_append_left (by rw [List.length_replicate]; exact hk2)]
    rw [List.getElem?_replicate]
    simp [hk2]
  · intro h2
    rw [hlens, h2, Nat.mul_div_left _ hws, Nat.mul_mod_left]
    rfl

/-- C1 at the spec's chunked scenario: 100 000 bytes in chunks of 32 768 give
transfers of 32 768, 32 768, 32 768 and 1 696 bytes. -/
theorem flash_transfer_lengths_witness :
    ∃ o : Outcome,
      flash defaultDevice (fullReadEnv (List.replicate 100000 0) 0 500) "/bitstream.bin"
          32768 = some o ∧
        o.ret = true ∧
        (transfers o.trace).map List.length = [32768, 32768, 32768, 1696] := by
  have hflash :=
    flash_of_open defaultDevice (fullReadEnv (List.replicate 100000 0) 0 500) "/bitstream.bin"
      32768 (List.replicate 100000 0) ⟨1600000, BitOrder.MSBFIRST, SpiMode.SPI_MODE0⟩ rfl rfl rfl
  obtain ⟨content, hop, hlens, _⟩ :=
    flash_transfer_lengths defaultDevice (fullReadEnv (List.replicate 100000 0) 0 500)
      "/bitstream.bin" 32768 _ hflash rfl (by norm_num)
      (by
        intro i rest
        simp only [fileRead, fullReadEnv]
        omega)
  refine ⟨_, hflash, rfl, ?_⟩
  have hc : content = List.replicate 100000 0 := by
    have h1 : some (List.replicate 100000 (0 : Byte)) = some content := hop
    injection h1 with h2
    exact h2.symm
  rw [hlens, hc, List.length_replicate]
  rfl

/-! ## Flash: the bytes on the wire -/

/-- When a read of a positive number of bytes returns at least one byte as long
as bytes remain, the loop transfers the whole unread part. -/
theorem streamLoop_sends_all (env : Env) (ws : Nat) (hws : 0 < ws)
    (hsched : ∀ i n r : Nat, 0 < n → 0 < r → 0 < env.readLen i n r)
    (i : Nat) (rest : List Byte) (t : Nat) :
    (transfers (streamLoop env ws i rest t).1).flatten = rest := by
  obtain ⟨j, tail, h1, h2⟩ := streamLoop_consumes env ws i rest t
  have htail : tail = [] := by
    by_contra hne
    have hlen : 0 < tail.length := List.length_pos.mpr hne
    have hpos : 0 < fileRead env j ws tail :=
      lt_min (hsched j ws tail.length hws hlen) (lt_min hws hlen)
    omega
  rw [htail, List.append_nil] at h1
  exact h1

/-- C2. In every call that returns true with chunk size > 0, under any read
schedule that returns at least one byte (and, as every read, at most the chunk
size and only the next unread bytes) until the end of the file, the buffers
handed to `SPI.transfer`, concatenated in call order, are the file content, so
the number of bytes sent is the file size. -/
theorem flash_sends_file (self : ShrikeFlash) (env : Env) (filename : String) (ws : Nat)
    (o : Outcome) (h : flash self env filename ws = some o) (hret : o.ret = true)
    (hws : 0 < ws) (hsched : ∀ i n r : Nat, 0 < n → 0 < r → 0 < env.readLen i n r) :
    ∃ content : List Byte,
      env.openPath filename = some content ∧
        (transfers o.trace).flatten = content ∧
        ((transfers o.trace).map List.length).sum = content.length := by
  obtain ⟨content, settings, _, hop, _, _, _, htrace⟩ :=
    flash_true_shape self env filename ws o h hret
  rw [streamLoop_events] at htrace
  have hall := streamLoop_sends_all env ws hws hsched 0 content 0
  have htr : transfers o.trace = transfers (streamLoop env ws 0 content 0).1 := by
    rw [htrace, transfers_completedTrace]
  rw [← htr] at hall
  refine ⟨content, hop, hall, ?_⟩
  rw [← List.length_flatten, hall]

/-- C2 on a five-byte file read in chunks of at most 2 bytes with short reads. -/
theorem flash_sends_file_witness :
    ∃ o : Outcome,
      flash defaultDevice (shortReadEnv [10, 20, 30, 40, 50] 0 3) "/led_blink.bin" 2 = some o ∧
        o.ret = true ∧
        (transfers o.trace).flatten = [10, 20, 30, 40, 50] ∧
        ((transfers o.trace).map List.length).sum = 5 := by
  have hflash :=
    flash_of_open defaultDevice (shortReadEnv [10, 20, 30, 40, 50] 0 3) "/led_blink.bin" 2
      [10, 20, 30, 40, 50] ⟨1600000, BitOrder.MSBFIRST, SpiMode.SPI_MODE0⟩ rfl rfl rfl
  obtain ⟨content, hop, hcat, hsum⟩ :=
    flash_sends_file defaultDevice (shortReadEnv [10, 20, 30, 40, 50] 0 3) "/led_blink.bin" 2 _
      hflash rfl (by norm_num)
      (by
        intro i n r hn hr
        simp only [shortReadEnv]
        split <;> omega)
  have hc : content = [10, 20, 30, 40, 50] := by
    have h1 : some ([10, 20, 30, 40, 50] : List Byte) = some content := hop
    injection h1 with h2
    exact h2.symm
  rw [hc] at hcat hsum
  exact ⟨_, hflash, rfl, hcat, hsum⟩

end ShrikeFlash

/-! ## Flash: calls that transfer nothing -/

namespace ShrikeFlash

/-- A loop whose first read returns zero issues no transfer and leaves the
counter alone. -/
theorem streamLoop_of_read_zero (env : Env) (ws i : Nat) (rest : List Byte) (t : Nat)
    (h : fileRead env i ws rest = 0) : streamLoop env ws i rest t = ([], t) := by
  rw [streamLoop, dif_neg (by omega)]

theorem rateOf_zero_sent (elapsed : Nat) : rateOf 0 elapsed = 0 := by
  unfold rateOf
  split <;> simp [toDouble, toFloat, roundToPrecision]

theorem rateOf_zero_elapsed (sent : Nat) : rateOf sent 0 = 0 := by
  simp [rateOf, toFloat, roundToPrecision]

/-- C7. On a file that exists, opens and has size 0, with any chunk size, `flash`
(on an object that `begin` has set up) returns true, issues no transfer, opens
and closes the transaction once each, stores the elapsed time
`millis() - startTime` in `last_flash_time` and stores 0 in `transfer_rate`. -/
theorem flash_empty_file (self : ShrikeFlash) (env : Env) (filename : String) (ws : Nat)
    (settings : SPISettings)
    (hex : env.existsPath filename = true) (hop : env.openPath filename = some [])
    (hset : self.spi_settings = some settings) :
    ∃ o : Outcome,
      flash self env filename ws = some o ∧ o.ret = true ∧
        transfers o.trace = [] ∧
        o.trace.countP Event.isBeginTransaction = 1 ∧
        o.trace.countP Event.isEndTransaction = 1 ∧
        o.self.last_flash_time =
          (env.millis 1 % 2 ^ 32 + 2 ^ 32 - env.millis 0 % 2 ^ 32) % 2 ^ 32 ∧
        o.self.transfer_rate = 0 := by
  have hloop : streamLoop env ws 0 [] 0 = ([], 0) :=
    streamLoop_of_read_zero env ws 0 [] 0 (by simp [fileRead])
  refine ⟨_, flash_of_open self env filename ws [] settings hex hop hset, rfl, ?_, ?_, ?_, ?_, ?_⟩
  · rw [hloop]
    exact transfers_completedTrace self filename [] settings [] _ _
  · rw [hloop]
    exact (count_transactions_completedTrace self filename [] settings [] _ _).1
  · rw [hloop]
    exact (count_transactions_completedTrace self filename [] settings [] _ _).2
  · simp [elapsedOf, subUnsignedLong]
  · show rateOf (streamLoop env ws 0 [] 0).2 (elapsedOf env) = 0
    rw [hloop]
    exact rateOf_zero_sent _

/-- C7 at the default object, an empty file, the default chunk size and a clock
that advances by 2 ms. -/
theorem flash_empty_file_witness :
    ∃ o : Outcome,
      flash defaultDevice (fullReadEnv [] 40 42) "/empty.bin" 46408 = some o ∧ o.ret = true ∧
        transfers o.trace = [] ∧
        o.trace.countP Event.isBeginTransaction = 1 ∧
        o.trace.countP Event.isEndTransaction = 1 ∧
        o.self.last_flash_time =
          ((fullReadEnv [] 40 42).millis 1 % 2 ^ 32 + 2 ^ 32 -
            (fullReadEnv [] 40 42).millis 0 % 2 ^ 32) % 2 ^ 32 ∧
        o.self.transfer_rate = 0 :=
  flash_empty_file defaultDevice (fullReadEnv [] 40 42) "/empty.bin" 46408
    ⟨1600000, BitOrder.MSBFIRST, SpiMode.SPI_MODE0⟩ rfl rfl rfl

/-- C10. With chunk size 0, on any file that exists and opens (empty or not),
`flash` (on an object that `begin` has set up) still performs the reset, the ss
pulse and one begin/end transaction pair, issues no transfer, returns true, and
overwrites the statistics with the elapsed time and a transfer rate of 0: a
true return does not imply that a byte of the bitstream was sent. -/
theorem flash_zero_chunk (self : ShrikeFlash) (env : Env) (filename : String)
    (content : List Byte) (settings : SPISettings)
    (hex : env.existsPath filename = true) (hop : env.openPath filename = some content)
    (hset : self.spi_settings = some settings) :
    ∃ o : Outcome,
      flash self env filename 0 = some o ∧ o.ret = true ∧
        transfers o.trace = [] ∧
        hardware o.trace =
          reset self ++
            [ Event.delay 500,
              Event.digitalWrite self.ss_pin Level.HIGH,
              Event.delayMicroseconds 2000,
              Event.digitalWrite self.ss_pin Level.LOW,
              Event.spiBeginTransaction settings,
              Event.spiEndTransaction,
              Event.digitalWrite self.ss_pin Level.HIGH,
              Event.fileClose,
              Event.delay 100 ] ∧
        o.self.last_flash_time =
          (env.millis 1 % 2 ^ 32 + 2 ^ 32 - env.millis 0 % 2 ^ 32) % 2 ^ 32 ∧
        o.self.transfer_rate = 0 := by
  have hloop : streamLoop env 0 0 content 0 = ([], 0) :=
    streamLoop_of_read_zero env 0 0 content 0 (by simp [fileRead])
  refine ⟨_, flash_of_open self env filename 0 content settings hex hop hset, rfl, ?_, ?_, ?_, ?_⟩
  · rw [hloop]
    exact transfers_completedTrace self filename content settings [] _ _
  · rw [hloop]
    have h := hardware_completedTrace self filename content settings [] (elapsedOf env)
      (rateOf 0 (elapsedOf env))
    simpa using h
  · simp [elapsedOf, subUnsignedLong]
  · show rateOf (streamLoop env 0 0 content 0).2 (elapsedOf env) = 0
    rw [hloop]
    exact rateOf_zero_sent _

/-- C10 at the default object and a five-byte file, with earlier statistics in
place of which the call stores 3 ms and 0 KB/s. -/
theorem flash_zero_chunk_witness :
    ∃ o : Outcome,
      flash { defaultDevice with last_flash_time := 232, transfer_rate := 195 }
          (fullReadEnv [10, 20, 30, 40, 50] 0 3) "/led_blink.bin" 0 = some o ∧
        o.ret = true ∧ transfers o.trace = [] ∧
        o.self.last_flash_time = 3 ∧ o.self.transfer_rate = 0 := by
  obtain ⟨o, h1, h2, h3, _, h5, h6⟩ :=
    flash_zero_chunk { defaultDevice with last_flash_time := 232, transfer_rate := 195 }
      (fullReadEnv [10, 20, 30, 40, 50] 0 3) "/led_blink.bin" [10, 20, 30, 40, 50]
      ⟨1600000, BitOrder.MSBFIRST, SpiMode.SPI_MODE0⟩ rfl rfl rfl
  exact ⟨o, h1, h2, h3, h5, h6⟩

end ShrikeFlash

/-! ## Flash: the slave-select line -/

namespace ShrikeFlash

/-- The ss level during the waits and SPI calls of a completed call, when the ss
pin is not also the enable or the power pin. -/
theorem ssProfile_completedTrace (self : ShrikeFlash) (filename : String)
    (content : List Byte) (settings : SPISettings) (chunks : List (List Byte)) (elapsed : Nat)
    (rate : ℚ) (pins : PinLevels)
    (hen : self.ss_pin ≠ self.en_pin) (hpwr : self.ss_pin ≠ self.pwr_pin) :
    ssProfile self.ss_pin pins
        (completedTrace self filename content settings (chunks.map Event.spiTransfer)
          elapsed rate) =
      [ (Event.delay 100, Level.LOW),
        (Event.delay 100, Level.LOW),
        (Event.delay 500, Level.LOW),
        (Event.delayMicroseconds 2000, Level.HIGH),
        (Event.spiBeginTransaction settings, Level.LOW) ] ++
        chunks.map (fun b => (Event.spiTransfer b, Level.LOW)) ++
        [ (Event.spiEndTransaction, Level.LOW),
          (Event.delay 100, Level.HIGH) ] := by
  simp only [completedTrace, ssProfile_append, replay_append, replay_map_spiTransfer,
    ssProfile_map_spiTransfer]
  simp [ssProfile, reset, replay, applyEvent, Event.isTimed, Event.isSpiTraffic, hen, hpwr]

/-- The ss level after a completed call is high, whatever the pins are. -/
theorem replay_completedTrace_ss (self : ShrikeFlash) (filename : String)
    (content : List Byte) (settings : SPISettings) (chunks : List (List Byte)) (elapsed : Nat)
    (rate : ℚ) (pins : PinLevels) :
    replay pins
        (completedTrace self filename content settings (chunks.map Event.spiTransfer)
          elapsed rate) self.ss_pin = Level.HIGH := by
  simp only [completedTrace, replay_append, replay_map_spiTransfer]
  simp [replay, applyEvent]

/-- C4, as the code has it. In every call that returns true, from any prior pin
levels and for every pin assignment, ss is high when the call returns. When the
ss pin is distinct from the enable and power pins, ss is low during both 100 ms
waits of the reset and during the 500 ms wait, high during the 2000 µs wait,
low during begin transaction, every transfer and end transaction, and high
during the final 100 ms wait. -/
theorem flash_true_ss_profile (self : ShrikeFlash) (env : Env) (filename : String) (ws : Nat)
    (o : Outcome) (pins : PinLevels)
    (h : flash self env filename ws = some o) (hret : o.ret = true) :
    replay pins o.trace self.ss_pin = Level.HIGH ∧
      (self.ss_pin ≠ self.en_pin → self.ss_pin ≠ self.pwr_pin →
        ∃ settings : SPISettings,
          self.spi_settings = some settings ∧
            ssProfile self.ss_pin pins o.trace =
              [ (Event.delay 100, Level.LOW),
                (Event.delay 100, Level.LOW),
                (Event.delay 500, Level.LOW),
                (Event.delayMicroseconds 2000, Level.HIGH),
                (Event.spiBeginTransaction settings, Level.LOW) ] ++
                (transfers o.trace).map (fun b => (Event.spiTransfer b, Level.LOW)) ++
                [ (Event.spiEndTransaction, Level.LOW),
                  (Event.delay 100, Level.HIGH) ]) := by
  obtain ⟨content, settings, _, _, hset, _, _, htrace⟩ :=
    flash_true_shape self env filename ws o h hret
  rw [streamLoop_events] at htrace
  refine ⟨?_, fun hen hpwr => ⟨settings, hset, ?_⟩⟩
  · rw [htrace]
    exact replay_completedTrace_ss _ _ _ _ _ _ _ _
  · rw [htrace, transfers_completedTrace]
    exact ssProfile_completedTrace _ _ _ _ _ _ _ _ hen hpwr

/-- C4, as the code has it, on a five-byte file sent in chunks of 2 bytes, with
every pin high before the call: at the default pins, where ss (1) is distinct
from enable (13) and power (12), and at an object whose ss is on the enable pin,
where only the level at return is stated. -/
theorem flash_true_ss_profile_witness :
    (∃ o : Outcome,
        flash defaultDevice (fullReadEnv [10, 20, 30, 40, 50] 0 3) "/led_blink.bin" 2 =
            some o ∧
          o.ret = true ∧
          replay (fun _ => Level.HIGH) o.trace defaultDevice.ss_pin = Level.HIGH ∧
          ∃ settings : SPISettings,
            defaultDevice.spi_settings = some settings ∧
              ssProfile defaultDevice.ss_pin (fun _ => Level.HIGH) o.trace =
                [ (Event.delay 100, Level.LOW),
                  (Event.delay 100, Level.LOW),
                  (Event.delay 500, Level.LOW),
                  (Event.delayMicroseconds 2000, Level.HIGH),
                  (Event.spiBeginTransaction settings, Level.LOW) ] ++
                  (transfers o.trace).map (fun b => (Event.spiTransfer b, Level.LOW)) ++
                  [ (Event.spiEndTransaction, Level.LOW),
                    (Event.delay 100, Level.HIGH) ]) ∧
      ∃ o : Outcome,
        flash { defaultDevice with ss_pin := 13 } (fullReadEnv [10, 20, 30, 40, 50] 0 3)
            "/led_blink.bin" 2 = some o ∧
          o.ret = true ∧ replay (fun _ => Level.LOW) o.trace 13 = Level.HIGH :=
  ⟨⟨_,
      flash_of_open defaultDevice (fullReadEnv [10, 20, 30, 40, 50] 0 3) "/led_blink.bin" 2
        [10, 20, 30, 40, 50] ⟨1600000, BitOrder.MSBFIRST, SpiMode.SPI_MODE0⟩ rfl rfl rfl,
      rfl,
      (flash_true_ss_profile defaultDevice (fullReadEnv [10, 20, 30, 40, 50] 0 3)
        "/led_blink.bin" 2 _ (fun _ => Level.HIGH)
        (flash_of_open defaultDevice (fullReadEnv [10, 20, 30, 40, 50] 0 3) "/led_blink.bin" 2
          [10, 20, 30, 40, 50] ⟨1600000, BitOrder.MSBFIRST, SpiMode.SPI_MODE0⟩ rfl rfl rfl)
        rfl).1,
      (flash_true_ss_profile defaultDevice (fullReadEnv [10, 20, 30, 40, 50] 0 3)
        "/led_blink.bin" 2 _ (fun _ => Level.HIGH)
        (flash_of_open defaultDevice (fullReadEnv [10, 20, 30, 40, 50] 0 3) "/led_blink.bin" 2
          [10, 20, 30, 40, 50] ⟨1600000, BitOrder.MSBFIRST, SpiMode.SPI_MODE0⟩ rfl rfl rfl)
        rfl).2 (by decide) (by decide)⟩,
    ⟨_,
      flash_of_open { defaultDevice with ss_pin := 13 } (fullReadEnv [10, 20, 30, 40, 50] 0 3)
        "/led_blink.bin" 2 [10, 20, 30, 40, 50]
        ⟨1600000, BitOrder.MSBFIRST, SpiMode.SPI_MODE0⟩ rfl rfl rfl,
      rfl,
      (flash_true_ss_profile { defaultDevice with ss_pin := 13 }
        (fullReadEnv [10, 20, 30, 40, 50] 0 3) "/led_blink.bin" 2 _ (fun _ => Level.LOW)
        (flash_of_open { defaultDevice with ss_pin := 13 }
          (fullReadEnv [10, 20, 30, 40, 50] 0 3) "/led_blink.bin" 2 [10, 20, 30, 40, 50]
          ⟨1600000, BitOrder.MSBFIRST, SpiMode.SPI_MODE0⟩ rfl rfl rfl)
        rfl).1⟩⟩

/-- C4 as stated fails. Entered with every pin (ss included) high:
a call on a missing file returns false with ss low; and a call that returns
true holds ss low during the two 100 ms waits of the reset and the 500 ms wait,
all before the transaction begins, and high during the 2000 µs wait. -/
theorem flash_ss_not_idle_high :
    (∃ o : Outcome,
        flash defaultDevice emptyFsEnv "/missing.bin" 46408 = some o ∧ o.ret = false ∧
          replay (fun _ => Level.HIGH) o.trace defaultDevice.ss_pin = Level.LOW) ∧
      ∃ o : Outcome,
        flash defaultDevice (fullReadEnv [10, 20, 30, 40, 50] 0 3) "/led_blink.bin" 2 =
            some o ∧
          o.ret = true ∧
          ssProfile defaultDevice.ss_pin (fun _ => Level.HIGH) o.trace =
            [ (Event.delay 100, Level.LOW),
              (Event.delay 100, Level.LOW),
              (Event.delay 500, Level.LOW),
              (Event.delayMicroseconds 2000, Level.HIGH),
              (Event.spiBeginTransaction ⟨1600000, BitOrder.MSBFIRST, SpiMode.SPI_MODE0⟩,
                Level.LOW),
              (Event.spiTransfer [10, 20], Level.LOW),
              (Event.spiTransfer [30, 40], Level.LOW),
              (Event.spiTransfer [50], Level.LOW),
              (Event.spiEndTransaction, Level.LOW),
              (Event.delay 100, Level.HIGH) ] := by
  constructor
  · refine ⟨_, flash_of_missing defaultDevice emptyFsEnv "/missing.bin" 46408 rfl, rfl, ?_⟩
    simp [replay, reset, applyEvent, defaultDevice]
  · refine ⟨_,
      flash_of_open defaultDevice (fullReadEnv [10, 20, 30, 40, 50] 0 3) "/led_blink.bin" 2
        [10, 20, 30, 40, 50] ⟨1600000, BitOrder.MSBFIRST, SpiMode.SPI_MODE0⟩ rfl rfl rfl,
      rfl, ?_⟩
    have hloop : (streamLoop (fullReadEnv [10, 20, 30, 40, 50] 0 3) 2 0 [10, 20, 30, 40, 50] 0).1 =
        [[10, 20], [30, 40], [50]].map Event.spiTransfer := by
      simp [streamLoop, fileRead, fullReadEnv]
    simp only [hloop]
    rw [ssProfile_completedTrace _ _ _ _ _ _ _ _ (by decide) (by decide)]
    rfl

end ShrikeFlash

/-! ## Floating point: rounding lemmas -/

theorem roundHalfEven_cases (x : ℚ) :
    roundHalfEven x = ⌊x⌋ ∧ x - ⌊x⌋ ≤ 1 / 2 ∨ roundHalfEven x = ⌊x⌋ + 1 ∧ 1 / 2 ≤ x - ⌊x⌋ := by
  unfold roundHalfEven
  simp only
  split_ifs with h1 h2 h3
  · exact Or.inl ⟨rfl, le_of_lt h1⟩
  · exact Or.inr ⟨rfl, le_of_lt h2⟩
  · exact Or.inl ⟨rfl, le_of_not_lt h2⟩
  · exact Or.inr ⟨rfl, le_of_not_lt h1⟩

theorem abs_roundHalfEven_sub_le (x : ℚ) : |(roundHalfEven x : ℚ) - x| ≤ 1 / 2 := by
  have hf := Int.floor_le x
  have hc := Int.lt_floor_add_one x
  rw [abs_le]
  rcases roundHalfEven_cases x with ⟨h, hr⟩ | ⟨h, hr⟩
  · rw [h]
    constructor <;> linarith
  · rw [h]
    push_cast
    constructor <;> linarith

theorem roundHalfEven_eq_of_abs_lt (x : ℚ) (z : ℤ) (h : |(z : ℚ) - x| < 1 / 2) :
    roundHalfEven x = z := by
  rw [abs_lt] at h
  have hf := Int.floor_le x
  have hc := Int.lt_floor_add_one x
  rcases roundHalfEven_cases x with ⟨h1, hr⟩ | ⟨h1, hr⟩
  · rw [h1]
    have a1 : (⌊x⌋ : ℚ) < (z : ℚ) + 1 := by linarith
    have a2 : (z : ℚ) < (⌊x⌋ : ℚ) + 1 := by linarith
    have b1 : ⌊x⌋ < z + 1 := by exact_mod_cast a1
    have b2 : z < ⌊x⌋ + 1 := by exact_mod_cast a2
    omega
  · rw [h1]
    have a1 : (⌊x⌋ : ℚ) + 1 < (z : ℚ) + 1 := by linarith
    have a2 : (z : ℚ) < (⌊x⌋ : ℚ) + 1 + 1 := by linarith
    have b1 : ⌊x⌋ + 1 < z + 1 := by exact_mod_cast a1
    have b2 : z < ⌊x⌋ + 1 + 1 := by exact_mod_cast a2
    omega

theorem roundHalfEven_intCast (z : ℤ) : roundHalfEven (z : ℚ) = z :=
  roundHalfEven_eq_of_abs_lt _ z (by simp)

theorem roundHalfEven_le_of_le (x : ℚ) (n : ℤ) (h : x ≤ n) : roundHalfEven x ≤ n := by
  have hf := Int.floor_le x
  rcases roundHalfEven_cases x with ⟨h1, hr⟩ | ⟨h1, hr⟩
  · rw [h1]
    have a : (⌊x⌋ : ℚ) ≤ n := le_trans hf h
    exact_mod_cast a
  · rw [h1]
    have a : (⌊x⌋ : ℚ) < n := by linarith
    have b : ⌊x⌋ < n := by exact_mod_cast a
    omega

theorem le_roundHalfEven_of_le (x : ℚ) (n : ℤ) (h : (n : ℚ) ≤ x) : n ≤ roundHalfEven x := by
  have hfl : n ≤ ⌊x⌋ := Int.le_floor.mpr h
  rcases roundHalfEven_cases x with ⟨h1, _⟩ | ⟨h1, _⟩
  · rw [h1]
    exact hfl
  · rw [h1]
    omega

theorem roundToPrecision_of_pos (p : ℕ) (x : ℚ) (hx : 0 < x) :
    roundToPrecision p x =
      (roundHalfEven (x / (2 : ℚ) ^ (Int.log 2 x - (p : ℤ) + 1)) : ℚ) *
        (2 : ℚ) ^ (Int.log 2 x - (p : ℤ) + 1) := by
  unfold roundToPrecision
  rw [if_neg (ne_of_gt hx), abs_of_pos hx]

theorem two_zpow_pos (k : ℤ) : (0 : ℚ) < (2 : ℚ) ^ k := zpow_pos (by norm_num) k

theorem two_zpow_log_le (x : ℚ) (hx : 0 < x) : (2 : ℚ) ^ Int.log 2 x ≤ x := by
  have h := Int.zpow_log_le_self (b := 2) (by norm_num) hx
  simpa using h

theorem lt_two_zpow_log_succ (x : ℚ) : x < (2 : ℚ) ^ (Int.log 2 x + 1) := by
  have h := Int.lt_zpow_succ_log_self (b := 2) (by norm_num) x
  simpa using h

theorem log_lt_of_lt_two_zpow (x : ℚ) (hx : 0 < x) (k : ℤ) (h : x < (2 : ℚ) ^ k) :
    Int.log 2 x < k := by
  have h2 : x < ((2 : ℕ) : ℚ) ^ k := by simpa using h
  exact (Int.lt_zpow_iff_log_lt (b := 2) (by norm_num) hx).mp h2

theorem log_two_zpow (k : ℤ) : Int.log 2 ((2 : ℚ) ^ k) = k := by
  have h := Int.log_zpow (R := ℚ) (b := 2) (by norm_num) k
  simpa using h

/-- A value whose quotient by its unit in the last place is an integer is not changed. -/
theorem roundToPrecision_of_int_quotient (p : ℕ) (x : ℚ) (hx : 0 < x) (z : ℤ)
    (hz : x / (2 : ℚ) ^ (Int.log 2 x - (p : ℤ) + 1) = z) : roundToPrecision p x = x := by
  rw [roundToPrecision_of_pos p x hx, hz, roundHalfEven_intCast, ← hz]
  exact div_mul_cancel₀ _ (ne_of_gt (two_zpow_pos _))

theorem roundToPrecision_two_zpow (p : ℕ) (hp : 1 ≤ p) (k : ℤ) :
    roundToPrecision p ((2 : ℚ) ^ k) = (2 : ℚ) ^ k := by
  apply roundToPrecision_of_int_quotient p _ (two_zpow_pos k) ((2 : ℤ) ^ (p - 1))
  rw [log_two_zpow, ← zpow_sub₀ (by norm_num : (2 : ℚ) ≠ 0)]
  have e : k - (k - (p : ℤ) + 1) = ((p - 1 : ℕ) : ℤ) := by
    rw [Nat.cast_sub hp]
    push_cast
    ring
  rw [e, zpow_natCast]
  push_cast
  rfl

/-- Error of rounding a value below a power of two. -/
theorem abs_roundToPrecision_sub_le (p : ℕ) (hp : 1 ≤ p) (x : ℚ) (hx : 0 < x) (k : ℤ)
    (hk : x ≤ (2 : ℚ) ^ k) : |roundToPrecision p x - x| ≤ (2 : ℚ) ^ (k - 1 - (p : ℤ)) := by
  rcases lt_or_eq_of_le hk with hlt | heq
  · have hlog : Int.log 2 x ≤ k - 1 := by
      have := log_lt_of_lt_two_zpow x hx k hlt
      omega
    rw [roundToPrecision_of_pos p x hx]
    set ulp : ℚ := (2 : ℚ) ^ (Int.log 2 x - (p : ℤ) + 1) with hulp
    have hup : 0 < ulp := two_zpow_pos _
    have h1 := abs_roundHalfEven_sub_le (x / ulp)
    have h2 : (roundHalfEven (x / ulp) : ℚ) * ulp - x =
        ((roundHalfEven (x / ulp) : ℚ) - x / ulp) * ulp := by
      field_simp
    rw [h2, abs_mul, abs_of_pos hup]
    have h3 : ulp = 2 * (2 : ℚ) ^ (Int.log 2 x - (p : ℤ)) := by
      rw [hulp, zpow_add_one₀ (by norm_num : (2 : ℚ) ≠ 0)]
      ring
    have h4 : (2 : ℚ) ^ (Int.log 2 x - (p : ℤ)) ≤ (2 : ℚ) ^ (k - 1 - (p : ℤ)) :=
      zpow_le_zpow_right₀ (by norm_num) (by omega)
    have h5 : 0 < (2 : ℚ) ^ (Int.log 2 x - (p : ℤ)) := two_zpow_pos _
    calc |(roundHalfEven (x / ulp) : ℚ) - x / ulp| * ulp ≤ 1 / 2 * ulp :=
          mul_le_mul_of_nonneg_right h1 (le_of_lt hup)
      _ = (2 : ℚ) ^ (Int.log 2 x - (p : ℤ)) := by rw [h3]; ring
      _ ≤ (2 : ℚ) ^ (k - 1 - (p : ℤ)) := h4
  · rw [heq, roundToPrecision_two_zpow p hp k, sub_self, abs_zero]
    exact le_of_lt (two_zpow_pos _)

theorem roundToPrecision_le_two_zpow (p : ℕ) (hp : 1 ≤ p) (x : ℚ) (hx : 0 < x) (k : ℤ)
    (hk : x ≤ (2 : ℚ) ^ k) : roundToPrecision p x ≤ (2 : ℚ) ^ k := by
  rcases lt_or_eq_of_le hk with hlt | heq
  · have hlog : Int.log 2 x + 1 ≤ k := by
      have := log_lt_of_lt_two_zpow x hx k hlt
      omega
    rw [roundToPrecision_of_pos p x hx]
    set ulp : ℚ := (2 : ℚ) ^ (Int.log 2 x - (p : ℤ) + 1) with hulp
    have hup : 0 < ulp := two_zpow_pos _
    have hsplit : (2 : ℚ) ^ (Int.log 2 x + 1) = ((2 : ℤ) ^ p : ℤ) * ulp := by
      rw [hulp]
      push_cast
      rw [← zpow_natCast (2 : ℚ) p, ← zpow_add₀ (by norm_num : (2 : ℚ) ≠ 0)]
      congr 1
      ring
    have hq : x / ulp ≤ (((2 : ℤ) ^ p : ℤ) : ℚ) := by
      rw [div_le_iff₀ hup, ← hsplit]
      exact le_of_lt (lt_two_zpow_log_succ x)
    have hn := roundHalfEven_le_of_le _ _ hq
    have hn2 : (roundHalfEven (x / ulp) : ℚ) ≤ (((2 : ℤ) ^ p : ℤ) : ℚ) := by exact_mod_cast hn
    calc (roundHalfEven (x / ulp) : ℚ) * ulp ≤ (((2 : ℤ) ^ p : ℤ) : ℚ) * ulp :=
          mul_le_mul_of_nonneg_right hn2 (le_of_lt hup)
      _ = (2 : ℚ) ^ (Int.log 2 x + 1) := hsplit.symm
      _ ≤ (2 : ℚ) ^ k := zpow_le_zpow_right₀ (by norm_num) hlog
  · rw [heq, roundToPrecision_two_zpow p hp k]

theorem roundToPrecision_pos (p : ℕ) (hp : 1 ≤ p) (x : ℚ) (hx : 0 < x) :
    0 < roundToPrecision p x := by
  rw [roundToPrecision_of_pos p x hx]
  set ulp : ℚ := (2 : ℚ) ^ (Int.log 2 x - (p : ℤ) + 1) with hulp
  have hup : 0 < ulp := two_zpow_pos _
  have hsplit : (2 : ℚ) ^ Int.log 2 x = ((2 : ℤ) ^ (p - 1) : ℤ) * ulp := by
    rw [hulp]
    push_cast
    rw [← zpow_natCast (2 : ℚ) (p - 1), ← zpow_add₀ (by norm_num : (2 : ℚ) ≠ 0)]
    congr 1
    rw [Nat.cast_sub hp]
    push_cast
    ring
  have hq : (((2 : ℤ) ^ (p - 1) : ℤ) : ℚ) ≤ x / ulp := by
    rw [le_div_iff₀ hup, ← hsplit]
    exact two_zpow_log_le x hx
  have hn := le_roundHalfEven_of_le _ _ hq
  have h1 : (0 : ℤ) < (2 : ℤ) ^ (p - 1) := by positivity
  have h2 : (0 : ℤ) < roundHalfEven (x / ulp) := lt_of_lt_of_le h1 hn
  have h3 : (0 : ℚ) < (roundHalfEven (x / ulp) : ℚ) := by exact_mod_cast h2
  exact mul_pos h3 hup

/-- Natural numbers below `2 ^ p` are floating-point numbers of precision `p`. -/
theorem roundToPrecision_natCast (p : ℕ) (n : ℕ) (hn : n < 2 ^ p) :
    roundToPrecision p (n : ℚ) = n := by
  rcases Nat.eq_zero_or_pos n with h0 | hpos
  · subst h0
    simp [roundToPrecision]
  · have hx : (0 : ℚ) < (n : ℚ) := by exact_mod_cast hpos
    have hlog : Int.log 2 (n : ℚ) = (Nat.log 2 n : ℤ) := Int.log_natCast 2 n
    have hl : Nat.log 2 n < p := Nat.log_lt_of_lt_pow (Nat.ne_of_gt hpos) hn
    apply roundToPrecision_of_int_quotient p _ hx (((n * 2 ^ (p - 1 - Nat.log 2 n) : ℕ)) : ℤ)
    rw [hlog]
    have e : ((Nat.log 2 n : ℤ) - (p : ℤ) + 1) = -(((p - 1 - Nat.log 2 n : ℕ)) : ℤ) := by
      omega
    rw [e, zpow_neg, zpow_natCast, div_inv_eq_mul]
    push_cast
    rfl

/-- Rounding a value whose binade and nearest significand are known. -/
theorem roundToPrecision_eval (p : ℕ) (x : ℚ) (e n : ℤ) (hx : 0 < x)
    (hlo : (2 : ℚ) ^ e ≤ x) (hhi : x < (2 : ℚ) ^ (e + 1))
    (hn : |(n : ℚ) - x / (2 : ℚ) ^ (e - (p : ℤ) + 1)| < 1 / 2) :
    roundToPrecision p x = (n : ℚ) * (2 : ℚ) ^ (e - (p : ℤ) + 1) := by
  have h1 : e ≤ Int.log 2 x := by
    have h : ((2 : ℕ) : ℚ) ^ e ≤ x := by simpa using hlo
    exact (Int.zpow_le_iff_le_log (b := 2) (by norm_num) hx).mp h
  have h2 : Int.log 2 x < e + 1 := log_lt_of_lt_two_zpow x hx (e + 1) hhi
  have h3 : Int.log 2 x = e := by omega
  rw [roundToPrecision_of_pos p x hx, h3, roundHalfEven_eq_of_abs_lt _ n hn]


/-! ## Flash: the statistics -/

namespace ShrikeFlash

theorem rateOf_of_pos (sent t : ℕ) (hs : sent < 2 ^ 32) (ht0 : 0 < t) (ht : t < 2 ^ 32) :
    rateOf sent t = toFloat (toDouble (toDouble ((sent : ℚ) * 1000 / (t : ℚ)) / 1024)) := by
  have h1 : toDouble (sent : ℚ) = sent :=
    roundToPrecision_natCast 53 sent (lt_trans hs (by norm_num))
  have h2 : toDouble ((sent : ℚ) * 1000) = (sent : ℚ) * 1000 := by
    have h := roundToPrecision_natCast 53 (sent * 1000)
      (by
        have : sent * 1000 < 2 ^ 32 * 1000 := by omega
        exact lt_trans this (by norm_num))
    push_cast at h
    exact h
  have h3 : toDouble (t : ℚ) = t := roundToPrecision_natCast 53 t (lt_trans ht (by norm_num))
  unfold rateOf
  rw [if_pos ht0]
  simp only [h1, h2, h3]

/-- The rate stored for 200 000 bytes sent in 3 ms. -/
theorem rateOf_200000_3 : rateOf 200000 3 = 16666667 / 256 := by
  rw [rateOf_of_pos 200000 3 (by norm_num) (by norm_num) (by norm_num)]
  have e1 : toDouble ((200000 : ℕ) * 1000 / ((3 : ℕ) : ℚ)) = 8947848533333333 / 2 ^ 27 := by
    unfold toDouble
    rw [roundToPrecision_eval 53 _ 25 8947848533333333 (by norm_num) (by norm_num) (by norm_num)
      (by rw [abs_lt]; norm_num)]
    norm_num
  rw [e1]
  have e2 : toDouble (8947848533333333 / 2 ^ 27 / 1024) = 8947848533333333 / 2 ^ 37 := by
    unfold toDouble
    rw [roundToPrecision_eval 53 _ 15 8947848533333333 (by norm_num) (by norm_num) (by norm_num)
      (by rw [abs_lt]; norm_num)]
    norm_num
  rw [e2]
  unfold toFloat
  rw [roundToPrecision_eval 24 _ 15 16666667 (by norm_num) (by norm_num) (by norm_num)
    (by rw [abs_lt]; norm_num)]
  norm_num

/-- Below 32768 KB/s the stored rate is within 1e-3 of the exact quotient. -/
theorem abs_rateOf_sub_lt (sent t : ℕ) (hs : sent < 2 ^ 32) (ht0 : 0 < t) (ht : t < 2 ^ 32)
    (hlt : (sent : ℚ) * 1000 / (t : ℚ) / 1024 < 32768) :
    |rateOf sent t - (sent : ℚ) * 1000 / (t : ℚ) / 1024| < 1 / 1000 := by
  rcases Nat.eq_zero_or_pos sent with h0 | hpos
  · subst h0
    rw [rateOf_zero_sent]
    norm_num
  · rw [rateOf_of_pos sent t hs ht0 ht]
    have hsq : (0 : ℚ) < (sent : ℚ) := by exact_mod_cast hpos
    have htq : (0 : ℚ) < (t : ℚ) := by exact_mod_cast ht0
    set x1 : ℚ := (sent : ℚ) * 1000 / (t : ℚ) with hx1
    have hx1pos : 0 < x1 := by positivity
    have hx1le : x1 ≤ (2 : ℚ) ^ (25 : ℤ) := by
      have : x1 < 33554432 := by linarith
      norm_num
      exact le_of_lt this
    have hc_err := abs_roundToPrecision_sub_le 53 (by norm_num) x1 hx1pos 25 hx1le
    have hc_le := roundToPrecision_le_two_zpow 53 (by norm_num) x1 hx1pos 25 hx1le
    have hc_pos := roundToPrecision_pos 53 (by norm_num) x1 hx1pos
    unfold toDouble toFloat
    set c : ℚ := roundToPrecision 53 x1 with hc
    have hx2pos : 0 < c / 1024 := by positivity
    have hx2le : c / 1024 ≤ (2 : ℚ) ^ (15 : ℤ) := by
      norm_num at hc_le ⊢
      linarith
    have hd_err := abs_roundToPrecision_sub_le 53 (by norm_num) (c / 1024) hx2pos 15 hx2le
    have hd_le := roundToPrecision_le_two_zpow 53 (by norm_num) (c / 1024) hx2pos 15 hx2le
    have hd_pos := roundToPrecision_pos 53 (by norm_num) (c / 1024) hx2pos
    set d : ℚ := roundToPrecision 53 (c / 1024) with hd
    have hf_err := abs_roundToPrecision_sub_le 24 (by norm_num) d hd_pos 15 hd_le
    set f : ℚ := roundToPrecision 24 d with hf
    rw [abs_le] at hc_err hd_err hf_err
    norm_num at hc_err hd_err hf_err
    rw [abs_lt]
    constructor <;> linarith [hc_err.1, hc_err.2, hd_err.1, hd_err.2, hf_err.1, hf_err.2]

/-- The counter `totalSent` of a call started at zero is the number of bytes
handed to `SPI.transfer`, as long as that number fits a `size_t`. -/
theorem streamLoop_totalSent_eq (env : Env) (ws : Nat) (content : List Byte)
    (hF : (transfers (streamLoop env ws 0 content 0).1).flatten.length < 2 ^ 32) :
    (streamLoop env ws 0 content 0).2 =
      (transfers (streamLoop env ws 0 content 0).1).flatten.length := by
  rw [streamLoop_totalSent env ws 0 content 0 (by norm_num), Nat.zero_add,
    Nat.mod_eq_of_lt hF]

/-- C5, as the code has it. In every call that returns true having sent `F`
bytes (`F < 2 ^ 32`), `last_flash_time` is `end - start` modulo `2 ^ 32` (plain
`end - start` when the clock did not wrap), and `transfer_rate` is 0 when that
is 0 and otherwise the `float` nearest to the `double` computation of
`F * 1000 / elapsed / 1024`; it is within 1e-3 of the exact quotient whenever
the quotient is below 32768. -/
theorem flash_statistics (self : ShrikeFlash) (env : Env) (filename : String) (ws : Nat)
    (o : Outcome) (h : flash self env filename ws = some o) (hret : o.ret = true)
    (hF : (transfers o.trace).flatten.length < 2 ^ 32) :
    o.self.last_flash_time =
        (env.millis 1 % 2 ^ 32 + 2 ^ 32 - env.millis 0 % 2 ^ 32) % 2 ^ 32 ∧
      (env.millis 0 ≤ env.millis 1 → env.millis 1 < 2 ^ 32 →
        o.self.last_flash_time = env.millis 1 - env.millis 0) ∧
      (o.self.last_flash_time = 0 → o.self.transfer_rate = 0) ∧
      (0 < o.self.last_flash_time →
        o.self.transfer_rate =
          toFloat
            (toDouble
              (toDouble
                (((transfers o.trace).flatten.length : ℚ) * 1000 /
                  (o.self.last_flash_time : ℚ)) / 1024))) ∧
      (0 < o.self.last_flash_time →
        ((transfers o.trace).flatten.length : ℚ) * 1000 / (o.self.last_flash_time : ℚ) / 1024 <
            32768 →
          |o.self.transfer_rate -
              ((transfers o.trace).flatten.length : ℚ) * 1000 /
                (o.self.last_flash_time : ℚ) / 1024| < 1 / 1000) := by
  obtain ⟨content, settings, _, _, _, htime, hrate, htrace⟩ :=
    flash_true_shape self env filename ws o h hret
  have htr : transfers o.trace = transfers (streamLoop env ws 0 content 0).1 := by
    rw [htrace]
    conv_lhs => rw [streamLoop_events]
    exact transfers_completedTrace _ _ _ _ _ _ _
  rw [htr] at hF ⊢
  rw [streamLoop_totalSent_eq env ws content hF] at hrate
  have hmod : elapsedOf env =
      (env.millis 1 % 2 ^ 32 + 2 ^ 32 - env.millis 0 % 2 ^ 32) % 2 ^ 32 := by
    simp [elapsedOf, subUnsignedLong]
  have hlt : elapsedOf env < 2 ^ 32 := by
    rw [hmod]
    exact Nat.mod_lt _ (by norm_num)
  rw [htime, hrate]
  refine ⟨hmod, ?_, ?_, ?_, ?_⟩
  · intro h01 h1
    rw [hmod, Nat.mod_eq_of_lt h1, Nat.mod_eq_of_lt (lt_of_le_of_lt h01 h1)]
    omega
  · intro h0
    rw [h0]
    exact rateOf_zero_elapsed _
  · intro hpos
    exact rateOf_of_pos _ _ hF hpos hlt
  · intro hpos hsmall
    exact abs_rateOf_sub_lt _ _ hF hpos hlt hsmall

/-- A call on a file that exists and opens, with chunk size > 0 and reads that
return at least one byte until the end of the file, returns true after sending
the whole file; the statistics are those of the file size and the elapsed time. -/
theorem flash_completes (self : ShrikeFlash) (env : Env) (filename : String) (ws : Nat)
    (content : List Byte) (settings : SPISettings)
    (hex : env.existsPath filename = true) (hop : env.openPath filename = some content)
    (hset : self.spi_settings = some settings) (hws : 0 < ws)
    (hsched : ∀ i n r : Nat, 0 < n → 0 < r → 0 < env.readLen i n r)
    (hlen : content.length < 2 ^ 32) :
    ∃ o : Outcome,
      flash self env filename ws = some o ∧ o.ret = true ∧
        (transfers o.trace).flatten = content ∧
        o.self.last_flash_time = elapsedOf env ∧
        o.self.transfer_rate = rateOf content.length (elapsedOf env) := by
  have hflash := flash_of_open self env filename ws content settings hex hop hset
  have hall := streamLoop_sends_all env ws hws hsched 0 content 0
  refine ⟨_, hflash, rfl, ?_, rfl, ?_⟩
  · show (transfers (completedTrace self filename content settings
        (streamLoop env ws 0 content 0).1 _ _)).flatten = content
    rw [streamLoop_events, transfers_completedTrace]
    exact hall
  · show rateOf (streamLoop env ws 0 content 0).2 (elapsedOf env) = _
    rw [streamLoop_totalSent_eq env ws content (by rw [hall]; exact hlen), hall]

/-- C5, as the code has it, at the spec's happy path: 46 408 bytes sent in one
chunk while the clock goes from 1000 ms to 1232 ms. -/
theorem flash_statistics_witness :
    ∃ o : Outcome,
      flash defaultDevice (fullReadEnv (List.replicate 46408 0) 1000 1232) "/led_blink.bin"
          46408 = some o ∧
        o.ret = true ∧ (transfers o.trace).flatten.length = 46408 ∧
        o.self.last_flash_time = 232 ∧
        |o.self.transfer_rate - 46408 * 1000 / 232 / 1024| < 1 / 1000 := by
  obtain ⟨o, hflash, hret, hcat, htime, _⟩ :=
    flash_completes defaultDevice (fullReadEnv (List.replicate 46408 0) 1000 1232)
      "/led_blink.bin" 46408 (List.replicate 46408 0)
      ⟨1600000, BitOrder.MSBFIRST, SpiMode.SPI_MODE0⟩ rfl rfl rfl (by norm_num)
      (by
        intro i n r hn _
        exact hn)
      (by rw [List.length_replicate]; norm_num)
  have hF : (transfers o.trace).flatten.length = 46408 := by
    rw [hcat, List.length_replicate]
  have ht : o.self.last_flash_time = 232 := by
    rw [htime]
    rfl
  obtain ⟨_, _, _, _, h5⟩ :=
    flash_statistics defaultDevice (fullReadEnv (List.replicate 46408 0) 1000 1232)
      "/led_blink.bin" 46408 o hflash hret (by rw [hF]; norm_num)
  rw [hF, ht] at h5
  exact ⟨o, hflash, hret, hF, ht, h5 (by norm_num) (by norm_num)⟩

/-- C5 as stated fails: 200 000 bytes sent while the clock advances by 3 ms
store the rate 65104.16796875, which is 1/768 > 1e-3 away from
200000 * 1000 / 3 / 1024. -/
theorem flash_rate_off_by_more_than_tolerance :
    ∃ o : Outcome,
      flash defaultDevice (fullReadEnv (List.replicate 200000 0) 0 3) "/bitstream.bin" 46408 =
          some o ∧
        o.ret = true ∧ (transfers o.trace).flatten.length = 200000 ∧
        o.self.last_flash_time = 3 ∧
        o.self.transfer_rate = 16666667 / 256 ∧
        |o.self.transfer_rate - 200000 * 1000 / 3 / 1024| = 1 / 768 ∧
        ¬ |o.self.transfer_rate - 200000 * 1000 / 3 / 1024| < 1 / 1000 := by
  obtain ⟨o, hflash, hret, hcat, htime, hrate⟩ :=
    flash_completes defaultDevice (fullReadEnv (List.replicate 200000 0) 0 3)
      "/bitstream.bin" 46408 (List.replicate 200000 0)
      ⟨1600000, BitOrder.MSBFIRST, SpiMode.SPI_MODE0⟩ rfl rfl rfl (by norm_num)
      (by
        intro i n r hn _
        exact hn)
      (by rw [List.length_replicate]; norm_num)
  have hF : (transfers o.trace).flatten.length = 200000 := by
    rw [hcat, List.length_replicate]
  have ht : o.self.last_flash_time = 3 := by
    rw [htime]
    rfl
  have he : elapsedOf (fullReadEnv (List.replicate 200000 0) 0 3) = 3 := rfl
  have hr : o.self.transfer_rate = 16666667 / 256 := by
    rw [hrate, List.length_replicate, he]
    exact rateOf_200000_3
  refine ⟨o, hflash, hret, hF, ht, hr, ?_, ?_⟩
  · rw [hr]
    norm_num [abs_of_pos]
  · rw [hr]
    norm_num [abs_of_pos]

end ShrikeFlash
